import Mathlib

/-!
# kmozillahelper: the line protocol of `Helper` (src/main.cpp)

A shallow embedding of the command loop of `src/main.cpp`: the line reader and
writer with their escaping, the argument list, the handlers and `readCommand`.

* Text is a list of characters (`QString`).
* Standard input is a value of `Cin`: the text still to be read, cut at its
  newlines, or the error state of the stream.
* A failed `assert` ends the process; a member function returns a `Res`, which
  is either a value with the state after the call or `abort`.
* The desktop services the handlers call (service trader, MIME database,
  dialogs, launchers) are parameters, collected in `Desktop`. A dialog is one
  call that returns the user's answer: commands that arrive while a dialog is
  open, which the nested event loop of the dialog would handle, are outside
  the model.
-/

namespace KMozillaHelper

/-- A `QString`, as the list of its characters. -/
abbrev QString := List Char

/-- The backslash character. -/
def backslash : Char := Char.ofNat 92

/-- The newline character. -/
def newline : Char := Char.ofNat 10

/-- Worker of `replace`: `skip` counts the characters of a matched occurrence
that are still to be dropped. -/
def replaceAux (before after : QString) : Nat → QString → QString
  | _, [] => []
  | skip + 1, _ :: cs => replaceAux before after skip cs
  | 0, c :: cs =>
    if before.isPrefixOf (c :: cs) then
      after ++ replaceAux before after (before.length - 1) cs
    else
      c :: replaceAux before after 0 cs

/-- `QString::replace(before, after)` for a non-empty `before` (as at every call
in the source): every occurrence of `before`, found from left to right without
overlap, is replaced by `after`; the inserted text is not searched again. -/
def replace (before after s : QString) : QString :=
  replaceAux before after 0 s

/-- The two replacements `Helper::readLine` applies to a line it has read
(main.cpp 692-695): first backslash-n becomes a newline, then a double backslash
becomes a single one. -/
def unescape (qline : QString) : QString :=
  replace [backslash, backslash] [backslash]
    (replace [backslash, 'n'] [newline] qline)

/-- The two replacements `Helper::outputLine` applies when `escape` is set
(main.cpp 722-724). The replacement text of the first call is the concatenation
of the adjacent literals `u"\\_s"` and `u"\\"_s`, that is backslash, underscore,
`s`, backslash. -/
def escape (line : QString) : QString :=
  replace [newline] [backslash, 'n']
    (replace [backslash] [backslash, '_', 's', backslash] line)

/-- The escaping convention in the words of the specification: every backslash
is doubled, then every newline is written as backslash followed by `n`. -/
def escapeSpec (s : QString) : QString :=
  replace [newline] [backslash, 'n']
    (replace [backslash] [backslash, backslash] s)

/-- The sentinel `u"\\E"_s` that ends an argument list: backslash, `E`. -/
def sentinel : QString := [backslash, 'E']

/-- Text not yet read from standard input, cut at its newlines: `line t rest`
is the line `t`, ended by a newline, followed by `rest`; `last t` is the text
`t` (possibly empty) that ends the input without a newline. -/
inductive Input where
  | line (text : QString) (rest : Input)
  | last (text : QString)
  deriving DecidableEq, Repr

/-- The unread input consisting of the raw text `cs`. -/
def Input.ofChars : List Char → Input
  | [] => .last []
  | c :: cs =>
    if c = newline then .line [] (Input.ofChars cs)
    else
      match Input.ofChars cs with
      | .line t r => .line (c :: t) r
      | .last t => .last (c :: t)

/-- The newline-terminated lines of unread input, as raw text. -/
def Input.lines : Input → List QString
  | .line t r => t :: r.lines
  | .last _ => []

/-- The state of `std::cin`: `good` with the text still unread, or `bad` once
`eofbit` or `failbit` is set; nothing is read from a bad stream, and the
program never clears the error state. -/
inductive Cin where
  | good (unread : Input)
  | bad
  deriving DecidableEq, Repr

/-- `std::cin.good()`. -/
def Cin.isGood : Cin → Bool
  | .good _ => true
  | .bad => false

/-- The newline-terminated lines still to be read from the stream. -/
def Cin.lines : Cin → List QString
  | .good unread => unread.lines
  | .bad => []

/-- `std::getline(std::cin, line)`: the line extracted when the call succeeds,
and the stream after the call. Text that ends at the end of input without a
newline is still extracted, but sets `eofbit`; when nothing can be extracted
the call fails. -/
def getline : Cin → Option QString × Cin
  | .good (.line t r) => (some t, .good r)
  | .good (.last []) => (none, .bad)
  | .good (.last (c :: cs)) => (some (c :: cs), .bad)
  | .bad => (none, .bad)

/-- The `Helper` object with the streams it uses and the one configuration
entry it both reads and writes (`BrowserApplication` in `kdeglobals`). -/
structure Helper where
  cin : Cin
  /-- the lines written to `std::cout`, each followed by `std::endl` -/
  cout : List QString
  /-- the lines written to `std::cerr` -/
  cerr : List QString
  arguments : List QString
  arguments_read : Bool
  wid : Int
  /-- the static cache of `handleHandlerExists` -/
  known_protocols : List (QString × Bool)
  browserApplication : QString
  /-- set once `QCoreApplication::exit()` has been called -/
  exited : Bool
  deriving DecidableEq, Repr

/-- The state in which `main` starts the event loop on the input `c`. -/
def Helper.init (c : Cin) (browser : QString) : Helper :=
  ⟨c, [], [], [], false, 0, [], browser, false⟩

/-- Outcome of a call: it returns `a` in state `h`, or an `assert` fails in
state `h` and the process is aborted. -/
inductive Res (α : Type) where
  | ok (a : α) (h : Helper)
  | abort (h : Helper)
  deriving DecidableEq, Repr

/-- The state in which the call ended. -/
def Res.state {α : Type} : Res α → Helper
  | .ok _ h => h
  | .abort h => h

/-- The value returned, if the call returned. -/
def Res.value {α : Type} : Res α → Option α
  | .ok a _ => some a
  | .abort _ => none

/-- A member function of `Helper`. -/
def M (α : Type) : Type := Helper → Res α

/-- Sequencing: an abort ends the computation. -/
def M.bind {α β : Type} (m : M α) (f : α → M β) : M β := fun h =>
  match m h with
  | .ok a h1 => f a h1
  | .abort h1 => .abort h1

instance : Monad M where
  pure a := fun h => .ok a h
  bind := M.bind

/-- The current state. -/
def state : M Helper := fun h => .ok h h

/-- An assignment to members of the state. -/
def update (f : Helper → Helper) : M Unit := fun h => .ok () (f h)

/-- `Helper::readLine` (main.cpp 685-697). -/
def readLine : M QString := fun h =>
  match getline h.cin with
  | (none, c) => .ok [] { h with cin := c }
  | (some line, c) => .ok (unescape line) { h with cin := c }

/-- `Helper::outputLine` (main.cpp 718-730). -/
def outputLine (line : QString) (esc : Bool) : M Unit := fun h =>
  .ok () { h with cout := h.cout ++ [if esc then escape line else line] }

/-- A line written to `std::cerr`. -/
def logError (line : QString) : M Unit := fun h =>
  .ok () { h with cerr := h.cerr ++ [line] }

/-- The loop of `Helper::readArguments` (main.cpp 735-752) on a good stream, by
recursion on the unread input; `readArgumentsLoop_unfold` states one round of
it in terms of `readLine`. A line ended by a newline leaves the stream good: it
is the sentinel, which ends the loop, or it is appended. At the end of input
the stream is no longer good after `readLine`: the list is cleared and the
result is `false`. -/
def readArgumentsLoop (mincount : Int) : Input → Helper → Res Bool
  | .line raw rest, h =>
    if unescape raw = sentinel then
      if mincount ≤ (h.arguments.length : Int) then
        .ok true { h with cin := .good rest, arguments_read := true }
      else
        .ok false { h with cin := .good rest, arguments_read := true,
                           cerr := h.cerr ++ ["Not enough arguments for KDE helper.".toList] }
    else
      readArgumentsLoop mincount rest
        { h with cin := .good rest, arguments := h.arguments ++ [unescape raw] }
  | .last _, h => .ok false { h with cin := .bad, arguments := [] }

/-- `Helper::readArguments` (main.cpp 732-753). On a stream that is already
bad the first `readLine` fails at once. -/
def readArguments (mincount : Int) : M Bool := fun h =>
  if h.arguments.isEmpty then
    match h.cin with
    | .good unread => readArgumentsLoop mincount unread h
    | .bad => .ok false { h with arguments := [] }
  else .abort h

/-- `Helper::getArgument` (main.cpp 755-759). -/
def getArgument : M QString := fun h =>
  match h.arguments with
  | [] => .abort h
  | a :: rest => .ok a { h with arguments := rest }

/-- `Helper::isArgument` (main.cpp 761-769). -/
def isArgument (argument : QString) : M Bool := fun h =>
  match h.arguments with
  | a :: rest =>
    if a = argument then .ok true { h with arguments := rest } else .ok false h
  | [] => .ok false h

/-- `QStringList::join(sep)`. -/
def join (sep : QString) : List QString → QString
  | [] => []
  | [a] => a
  | a :: b :: rest => a ++ sep ++ join sep (b :: rest)

/-- `Helper::allArgumentsUsed` (main.cpp 771-780). -/
def allArgumentsUsed : M Bool := fun h =>
  if h.arguments_read then
    if h.arguments.isEmpty then .ok true { h with arguments_read := false }
    else
      .ok false { h with arguments_read := false, arguments := [],
                         cerr := h.cerr ++
                           ["Unused arguments for KDE helper:".toList ++ join [' '] h.arguments] }
  else .abort h

/-- Value of a run of decimal digits read after `acc`; `none` when a character
is not a digit. -/
def parseDigits (acc : Nat) : List Char → Option Nat
  | [] => some acc
  | c :: cs =>
    if c.isDigit then parseDigits (10 * acc + (c.toNat - 48)) cs else none

/-- The integer a text denotes for `QString::toInt` and `QString::toLong` in
base 10, as Qt documents them: white space around the number is ignored, a sign
may precede the digits, and at least one digit is required. -/
def parseInteger (s : QString) : Option Int :=
  match ((s.dropWhile Char.isWhitespace).reverse.dropWhile Char.isWhitespace).reverse with
  | [] => none
  | c :: ds =>
    if c = '-' then
      if ds.isEmpty then none else (parseDigits 0 ds).map (fun n => - (n : Int))
    else if c = '+' then
      if ds.isEmpty then none else (parseDigits 0 ds).map (fun n => (n : Int))
    else (parseDigits 0 (c :: ds)).map (fun n => (n : Int))

/-- `QString::toInt()`: 0 when the text is not a number or does not fit a
32-bit `int`. -/
def toInt (s : QString) : Int :=
  match parseInteger s with
  | some v => if - 2 ^ 31 ≤ v ∧ v < 2 ^ 31 then v else 0
  | none => 0

/-- `QString::toLong()`: 0 when the text is not a number or does not fit a
64-bit `long`. -/
def toLong (s : QString) : Int :=
  match parseInteger s with
  | some v => if - 2 ^ 63 ≤ v ∧ v < 2 ^ 63 then v else 0
  | none => 0

/-- `Helper::getArgumentParent` (main.cpp 782-787). -/
def getArgumentParent : M Int := do
  if (← isArgument "PARENT".toList) then
    return toLong (← getArgument)
  return 0

/-- `QString::split(sep)` for a one-character separator; empty parts are kept,
so the result is never empty. -/
def split (sep : Char) : QString → List QString
  | [] => [[]]
  | c :: cs =>
    if c = sep then [] :: split sep cs
    else
      match split sep cs with
      | [] => [[c]]
      | p :: ps => (c :: p) :: ps

/-- `QList::first()` of a list `split` returns. -/
def first (l : List QString) : QString := l.headD []

/-- The digits of a place marker, read just after `%` or `%L`: the marker's
number (one or two digits) and how many characters the digits take. -/
def markerDigits : QString → Option (Nat × Nat)
  | [] => none
  | [d1] => if d1.isDigit then some (d1.toNat - 48, 1) else none
  | d1 :: d2 :: _ =>
    if d1.isDigit then
      if d2.isDigit then some (10 * (d1.toNat - 48) + (d2.toNat - 48), 2)
      else some (d1.toNat - 48, 1)
    else none

/-- The place marker that starts with a `%` followed by `cs`, if there is one:
its number and its length after the `%`. -/
def markerAt : QString → Option (Nat × Nat)
  | [] => none
  | c :: cs =>
    if c = 'L' then (markerDigits cs).map (fun m => (m.1, m.2 + 1))
    else markerDigits (c :: cs)

/-- The numbers of the place markers of a format string, from left to right. -/
def markerNumbers : QString → List Nat
  | [] => []
  | c :: cs =>
    if c = '%' then
      match markerAt cs with
      | some m => m.1 :: markerNumbers cs
      | none => markerNumbers cs
    else markerNumbers cs

/-- The lowest number of a list of marker numbers. -/
def lowest : List Nat → Option Nat
  | [] => none
  | n :: ns =>
    match lowest ns with
    | none => some n
    | some m => some (min n m)

/-- Worker of `arg`: replaces the markers numbered `n` by `a`; `skip` counts the
characters of a replaced marker that are still to be dropped. -/
def argAux (a : QString) (n : Nat) : Nat → QString → QString
  | _, [] => []
  | skip + 1, _ :: cs => argAux a n skip cs
  | 0, c :: cs =>
    if c = '%' then
      match markerAt cs with
      | some m => if m.1 = n then a ++ argAux a n m.2 cs else c :: argAux a n 0 cs
      | none => c :: argAux a n 0 cs
    else c :: argAux a n 0 cs

/-- `QString::arg(a)` for a text argument, as Qt documents it: every occurrence
of the place marker with the lowest number in `s` is replaced by `a`; a string
without a place marker is returned unchanged. -/
def arg (s a : QString) : QString :=
  match lowest (markerNumbers s) with
  | some n => argAux a n 0 s
  | none => s

/-- Decimal text of an integer, as `QString::arg(int)` inserts it. -/
def number (n : Int) : QString := (toString n).toList

/-- `Helper::convertToNameFilters` (main.cpp 357-375). -/
def convertToNameFilters (input : QString) : List QString :=
  (split newline input).foldl
    (fun ret filter =>
      match split '|' filter with
      | [] => ret
      | [d0] => ret ++ [arg "%0 Files(%0)".toList d0]
      | d0 :: d1 :: _ => ret ++ [arg (arg "%0 (%1)(%1)".toList d1) d0])
    []

/-- `HELPER_VERSION` (main.cpp 61). -/
def HELPER_VERSION : Int := 6

/-- A `KService`, by the two properties the helper reads. -/
structure KService where
  name : QString
  exec : QString
  deriving DecidableEq, Repr

/-- A `QMimeType`, by the properties the helper reads. -/
structure QMimeType where
  isValid : Bool
  name : QString
  comment : QString
  deriving DecidableEq, Repr

/-- What `KOpenWithDialog` reports after `exec()`. -/
structure OpenWithResult where
  accepted : Bool
  service : Option KService
  text : QString

/-- What `handleGetOpenOrSaveX` sets on its `QFileDialog` before `exec()`. -/
structure FileDialogSetup where
  title : QString
  defaultPath : QString
  nameFilters : List QString
  selectedNameFilter : Option QString
  save : Bool
  multiple : Bool
  url : Bool
  wid : Int

/-- What the `QFileDialog` reports after `exec()`; an empty text in
`selectedUrls` stands for the empty `QUrl()`. -/
structure FileDialogResult where
  accepted : Bool
  selectedNameFilter : QString
  selectedUrls : List QString
  selectedFiles : List QString

/-- The desktop services the handlers call. Each field is the library call
named in its comment; the helper only reads the answers. -/
structure Desktop where
  /-- `KProtocolInfo::isHelperProtocol` -/
  isHelperProtocol : QString → Bool
  /-- `KProtocolInfo::exec` -/
  protocolExec : QString → QString
  /-- `KApplicationTrader::preferredService` -/
  preferredService : QString → Option KService
  /-- `KApplicationTrader::queryByMimeType` -/
  queryByMimeType : QString → List KService
  /-- `KService::serviceByDesktopName` -/
  serviceByDesktopName : QString → Option KService
  /-- `KService::allServices` -/
  allServices : List KService
  /-- `QMimeDatabase().mimeTypesForFileName` -/
  mimeTypesForFileName : QString → List QMimeType
  /-- `QMimeDatabase().mimeTypeForName` -/
  mimeTypeForName : QString → QMimeType
  /-- `QStandardPaths::findExecutable` -/
  findExecutable : QString → QString
  /-- `QUrl::fromUserInput(x).url()` -/
  urlFromUserInput : QString → QString
  /-- `i18n` -/
  i18n : QString → QString
  /-- `KOpenWithDialog::exec()` for a window title and a parent window -/
  openWithDialog : QString → Int → OpenWithResult
  /-- `QFileDialog::nameFilters()` after `setNameFilters` -/
  nameFilters : List QString → List QString
  /-- `QFileDialog::exec()` -/
  fileDialog : FileDialogSetup → FileDialogResult
  /-- `QFileDialog::getExistingDirectoryUrl(nullptr, title, startDir)`: the
  valid URL chosen, if any -/
  getExistingDirectoryUrl : QString → QString → Option QString
  /-- `QFileDialog::getExistingDirectory(nullptr, title, startDir)` -/
  getExistingDirectory : QString → QString → QString
  /-- `KProcess::startDetached` -/
  startDetached : QString → List QString → Bool
  /-- `EmailClient` of the current profile in `emaildefaults` -/
  emailClient : QString
  /-- `TerminalClient` of the current profile in `emaildefaults` -/
  terminalClient : Bool
  /-- `TerminalApplication` of the general configuration -/
  terminalApplication : QString

/-- `Helper::handleCheck` (main.cpp 192-203). -/
def handleCheck : M Bool := do
  if !(← readArguments 1) then
    return false
  let version := toInt (← getArgument)
  if !(← allArgumentsUsed) then
    return false
  if version ≤ HELPER_VERSION then
    return true
  logError "KDE helper version too old.".toList
  return false

/-- `Helper::handleGetProxy` (main.cpp 205-228); `proxy` is the empty string
there, so the first branch is always taken. -/
def handleGetProxy : M Bool := do
  if !(← readArguments 1) then
    return false
  let _url ← getArgument
  if !(← allArgumentsUsed) then
    return false
  outputLine "DIRECT".toList true
  return true

/-- `Helper::handleHandlerExists` (main.cpp 230-249). -/
def handleHandlerExists (d : Desktop) : M Bool := do
  if !(← readArguments 1) then
    return false
  let protocol ← getArgument
  if !(← allArgumentsUsed) then
    return false
  let it ← (fun h =>
    match h.known_protocols.lookup protocol with
    | some b => Res.ok b h
    | none =>
      Res.ok (d.isHelperProtocol protocol)
        { h with known_protocols :=
            h.known_protocols ++ [(protocol, d.isHelperProtocol protocol)] } : M Bool)
  if it then
    return true
  return (d.preferredService ("x-scheme-handler/".toList ++ protocol)).isSome

/-- `Helper::writeMimeInfo` (main.cpp 290-301). -/
def writeMimeInfo (d : Desktop) (mime : QMimeType) : M Bool := do
  match d.preferredService mime.name with
  | some service =>
    outputLine mime.name true
    outputLine mime.comment true
    outputLine service.name true
    return true
  | none => return false

/-- `Helper::handleGetFromExtension` (main.cpp 251-266). -/
def handleGetFromExtension (d : Desktop) : M Bool := do
  if !(← readArguments 1) then
    return false
  let ext ← getArgument
  if !(← allArgumentsUsed) then
    return false
  if !ext.isEmpty then
    match (d.mimeTypesForFileName ("foo.".toList ++ ext)).find? (fun mime => mime.isValid) with
    | some mime => return (← writeMimeInfo d mime)
    | none => pure ()
  return false

/-- The first word of a command line: `exec.split(' ').first()`. -/
def firstWord (exec : QString) : QString := first (split ' ' exec)

/-- `Helper::getAppForProtocol` (main.cpp 638-683). -/
def getAppForProtocol (d : Desktop) (protocol : QString) : QString :=
  match d.preferredService ("x-scheme-handler/".toList ++ protocol) with
  | some service => service.name
  | none =>
    if !d.isHelperProtocol protocol then []
    else
      let exec := d.protocolExec protocol
      if exec.isEmpty then []
      else
        let exec := if exec.contains ' ' then firstWord exec else exec
        match d.serviceByDesktopName exec with
        | some service => service.name
        | none =>
          let servicename :=
            match d.allServices.find?
                (fun service =>
                  exec = (if service.exec.contains ' ' then firstWord service.exec
                          else service.exec)) with
            | some service => service.name
            | none => []
          if servicename.isEmpty && exec = "kmailservice".toList then d.i18n "KDE".toList
          else servicename

/-- `Helper::handleGetFromType` (main.cpp 268-288). -/
def handleGetFromType (d : Desktop) : M Bool := do
  if !(← readArguments 1) then
    return false
  let type ← getArgument
  if !(← allArgumentsUsed) then
    return false
  let mime := d.mimeTypeForName type
  if mime.isValid then
    return (← writeMimeInfo d mime)
  let app := getAppForProtocol d type
  if !app.isEmpty then
    outputLine type true
    outputLine type true
    outputLine app true
    return true
  return false

/-- `Helper::handleGetAppDescForScheme` (main.cpp 303-317). -/
def handleGetAppDescForScheme (d : Desktop) : M Bool := do
  if !(← readArguments 1) then
    return false
  let scheme ← getArgument
  if !(← allArgumentsUsed) then
    return false
  let app := getAppForProtocol d scheme
  if !app.isEmpty then
    outputLine app true
    return true
  return false

/-- `Helper::handleAppsDialog` (main.cpp 319-355). -/
def handleAppsDialog (d : Desktop) : M Bool := do
  if !(← readArguments 1) then
    return false
  let title ← getArgument
  let wid ← getArgumentParent
  if !(← allArgumentsUsed) then
    return false
  let dialog := d.openWithDialog title wid
  if dialog.accepted then
    let command ←
      match dialog.service with
      | some service => pure service.exec
      | none => if !dialog.text.isEmpty then pure dialog.text else return false
    let command := first (split ' ' command)
    let command := d.findExecutable command
    if command.isEmpty then
      return false
    outputLine (d.urlFromUserInput command) true
    return true
  return false

/-- `QList::at(i)`: the index must be in range (Qt asserts it). -/
def listAt (l : List QString) (i : Int) : M QString := fun h =>
  if 0 ≤ i then
    match l.get? i.toNat with
    | some x => .ok x h
    | none => .abort h
  else .abort h

/-- `QList::indexOf(x)`: the first position of `x`, or -1. -/
def indexOf (l : List QString) (x : QString) : Int :=
  if l.indexOf x < l.length then (l.indexOf x : Int) else -1

/-- The loops `for (... : result) outputLine(...)` of `handleGetOpenOrSaveX`
(main.cpp 428-429 and 440-441). -/
def outputLines : List QString → M Unit
  | [] => pure ()
  | line :: rest => do
    outputLine line true
    outputLines rest

/-- `Helper::handleGetOpenOrSaveX` (main.cpp 377-446). -/
def handleGetOpenOrSaveX (d : Desktop) (url save : Bool) : M Bool := do
  if !(← readArguments 4) then
    return false
  let defaultPath ← getArgument
  let filtersParsed := convertToNameFilters (← getArgument)
  let selectFilter := toInt (← getArgument)
  let title ← getArgument
  let multiple ← if save then pure false else isArgument "MULTIPLE".toList
  let wid ← getArgumentParent
  update (fun h => { h with wid := wid })
  if !(← allArgumentsUsed) then
    return false
  let title :=
    if title.isEmpty then (if save then d.i18n "Save".toList else d.i18n "Open".toList)
    else title
  let nameFilters := d.nameFilters filtersParsed
  let selected ←
    if 0 ≤ selectFilter ∧ (nameFilters.length : Int) ≤ selectFilter then
      (do let f ← listAt nameFilters selectFilter; pure (some f))
    else pure none
  let dialog := d.fileDialog
    ⟨title, defaultPath, filtersParsed, selected, save, multiple, url, wid⟩
  if !dialog.accepted then
    return false
  let usedFilter := indexOf nameFilters dialog.selectedNameFilter
  if url then
    let result := dialog.selectedUrls.filter (fun u => !u.isEmpty)
    if !result.isEmpty then
      outputLine (arg "%0".toList (number usedFilter)) true
      outputLines result
      return true
  else
    let result := dialog.selectedFiles.filter (fun str => !str.isEmpty)
    if !result.isEmpty then
      outputLine (arg "%0".toList (number usedFilter)) true
      outputLines result
      return true
  return false

/-- `Helper::handleGetDirectoryX` (main.cpp 448-477). -/
def handleGetDirectoryX (d : Desktop) (url : Bool) : M Bool := do
  if !(← readArguments 2) then
    return false
  let startDir ← getArgument
  let title ← getArgument
  let wid ← getArgumentParent
  update (fun h => { h with wid := wid })
  if !(← allArgumentsUsed) then
    return false
  if url then
    match d.getExistingDirectoryUrl title startDir with
    | some result =>
      outputLine result true
      return true
    | none => pure ()
  else
    let result := d.getExistingDirectory title startDir
    if !result.isEmpty then
      outputLine result true
      return true
  return false

/-- `Helper::handleOpen` (main.cpp 479-506): both branches start an
`OpenUrlJob` and return `true`. -/
def handleOpen : M Bool := do
  if !(← readArguments 1) then
    return false
  let _url ← getArgument
  let mut _mime : QString := []
  if (← isArgument "MIMETYPE".toList) then
    _mime ← getArgument
  if !(← allArgumentsUsed) then
    return false
  return true

/-- `Helper::handleReveal` (main.cpp 508-531). -/
def handleReveal (d : Desktop) : M Bool := do
  if !(← readArguments 1) then
    return false
  let path ← getArgument
  if !(← allArgumentsUsed) then
    return false
  match d.queryByMimeType "inode/directory".toList with
  | app :: _ =>
    let command := first (split ' ' app.exec)
    if command = "dolphin".toList ∨ command = "konqueror".toList then
      let command := d.findExecutable command
      if command.isEmpty then
        return false
      return d.startDetached command ["--select".toList, path]
  | [] => pure ()
  return true

/-- `Helper::handleRun` (main.cpp 533-545). -/
def handleRun : M Bool := do
  if !(← readArguments 2) then
    return false
  let _app ← getArgument
  let _arg ← getArgument
  if !(← allArgumentsUsed) then
    return false
  return true

/-- `Helper::handleGetDefaultFeedReader` (main.cpp 547-559). -/
def handleGetDefaultFeedReader (d : Desktop) : M Bool := do
  if !(← readArguments 0) then
    return false
  let reader := d.findExecutable "akregator".toList
  if !reader.isEmpty then
    outputLine reader true
    return true
  return false

/-- `Helper::handleOpenMail` (main.cpp 561-584); `runApplication` returns
`true`. -/
def handleOpenMail (d : Desktop) : M Bool := do
  if !(← readArguments 0) then
    return false
  let command := if d.emailClient.isEmpty then "kmail".toList else d.emailClient
  let command :=
    if d.terminalClient then d.terminalApplication ++ " -e ".toList ++ command else command
  match d.serviceByDesktopName (first (split ' ' command)) with
  | some _mail => return true
  | none => return false

/-- `Helper::handleOpenNews` (main.cpp 586-596). -/
def handleOpenNews (d : Desktop) : M Bool := do
  if !(← readArguments 0) then
    return false
  match d.serviceByDesktopName "knode".toList with
  | some _news => return true
  | none => return false

/-- `Helper::handleIsDefaultBrowser` (main.cpp 598-605). -/
def handleIsDefaultBrowser : M Bool := do
  if !(← readArguments 0) then
    return false
  let browser := (← state).browserApplication
  return browser = "MozillaFirefox".toList || browser = "MozillaFirefox.desktop".toList ||
    browser = "!firefox".toList || browser = "!/usr/bin/firefox".toList ||
    browser = "firefox".toList || browser = "firefox.desktop".toList

/-- `Helper::handleSetDefaultBrowser` (main.cpp 607-620). -/
def handleSetDefaultBrowser : M Bool := do
  if !(← readArguments 1) then
    return false
  let _alltypes := (← getArgument) = "ALLTYPES".toList
  if !(← allArgumentsUsed) then
    return false
  update (fun h => { h with browserApplication := "firefox".toList })
  return true

/-- `Helper::handleDownloadFinished` (main.cpp 622-636). -/
def handleDownloadFinished : M Bool := do
  if !(← readArguments 1) then
    return false
  let _download ← getArgument
  if !(← allArgumentsUsed) then
    return false
  return true

/-- The dispatch of `Helper::readCommand` (main.cpp 134-183): the handler of a
known command keyword, `none` for any other text. -/
def handlerOf (d : Desktop) (command : QString) : Option (M Bool) :=
  if command = "CHECK".toList then some handleCheck
  else if command = "GETPROXY".toList then some handleGetProxy
  else if command = "HANDLEREXISTS".toList then some (handleHandlerExists d)
  else if command = "GETFROMEXTENSION".toList then some (handleGetFromExtension d)
  else if command = "GETFROMTYPE".toList then some (handleGetFromType d)
  else if command = "GETAPPDESCFORSCHEME".toList then some (handleGetAppDescForScheme d)
  else if command = "APPSDIALOG".toList then some (handleAppsDialog d)
  else if command = "GETOPENFILENAME".toList then some (handleGetOpenOrSaveX d false false)
  else if command = "GETOPENURL".toList then some (handleGetOpenOrSaveX d true false)
  else if command = "GETSAVEFILENAME".toList then some (handleGetOpenOrSaveX d false true)
  else if command = "GETSAVEURL".toList then some (handleGetOpenOrSaveX d true true)
  else if command = "GETDIRECTORYFILENAME".toList then some (handleGetDirectoryX d false)
  else if command = "GETDIRECTORYURL".toList then some (handleGetDirectoryX d true)
  else if command = "OPEN".toList then some handleOpen
  else if command = "REVEAL".toList then some (handleReveal d)
  else if command = "RUN".toList then some handleRun
  else if command = "GETDEFAULTFEEDREADER".toList then some (handleGetDefaultFeedReader d)
  else if command = "OPENMAIL".toList then some (handleOpenMail d)
  else if command = "OPENNEWS".toList then some (handleOpenNews d)
  else if command = "ISDEFAULTBROWSER".toList then some handleIsDefaultBrowser
  else if command = "SETDEFAULTBROWSER".toList then some handleSetDefaultBrowser
  else if command = "DOWNLOADFINISHED".toList then some handleDownloadFinished
  else none

/-- The status line of `readCommand` (main.cpp 186). -/
def statusLine (status : Bool) : QString := if status then ['1'] else ['0']

/-- `Helper::readCommand` (main.cpp 111-190). -/
def readCommand (d : Desktop) : M Unit := do
  let command ← readLine
  if !(← state).cin.isGood then
    update (fun h => { h with exited := true })
    return
  let status ←
    match handlerOf d command with
    | some handler => handler
    | none =>
      logError ("Unknown command for KDE helper: ".toList ++ command)
      pure false
  outputLine (statusLine status) false

/-- The event loop on `n` activations of the input notifier: `readCommand` runs
once per activation, until the application has exited or was aborted. -/
def readCommands (d : Desktop) : Nat → M Unit
  | 0 => pure ()
  | n + 1 => do
    readCommand d
    if (← state).exited then
      return
    readCommands d n

/-- The unread input that starts with the raw lines `ls`, each ended by a
newline, and goes on with `rest`. -/
def Input.prepend : List QString → Input → Input
  | [], rest => rest
  | l :: ls, rest => .line l (Input.prepend ls rest)

/-- The unread input that starts with the request made of the raw argument
lines `args` and the raw sentinel line `end_`, and goes on with `rest`. -/
def Input.request (args : List QString) (end_ : QString) (rest : Input) : Input :=
  Input.prepend (args ++ [end_]) rest

/-- No backslash of `s` is immediately followed by the letter `n`. -/
def NoBackslashN : QString → Bool
  | [] => true
  | c :: cs => !(c == backslash && cs.head? == some 'n') && NoBackslashN cs

/-- The entry the loop body of `convertToNameFilters` (main.cpp 366-371) appends
for the segment `filter`. -/
def nameFilterOf (filter : QString) : QString :=
  match split '|' filter with
  | [] => []
  | [d0] => arg "%0 Files(%0)".toList d0
  | d0 :: d1 :: _ => arg (arg "%0 (%1)(%1)".toList d1) d0

/-- The unescaping in the words of the specification, the inverse of
`escapeSpec`: read from left to right, a backslash followed by a backslash is
one backslash, a backslash followed by `n` is a newline, and every other
character is itself. -/
def unescapeSpec : QString → QString
  | [] => []
  | [c] => [c]
  | c :: d :: cs =>
    if c = backslash ∧ d = backslash then backslash :: unescapeSpec cs
    else if c = backslash ∧ d = 'n' then newline :: unescapeSpec cs
    else c :: unescapeSpec (d :: cs)

/-- No escaped backslash of the line is immediately followed by the letter `n`:
read from left to right as `unescapeSpec` reads it, no pair of backslashes has
an `n` right after it. -/
def NoEscapedBackslashN : QString → Bool
  | [] => true
  | [_] => true
  | c :: d :: cs =>
    if c = backslash ∧ d = backslash then
      !(cs.head? == some 'n') && NoEscapedBackslashN cs
    else if c = backslash ∧ d = 'n' then NoEscapedBackslashN cs
    else NoEscapedBackslashN (d :: cs)

/-- Line `n` of the raw lines `ls` is the first whose unescaped text, by the
convention of the specification, is the sentinel. -/
def FirstSentinelLine (ls : List QString) (n : Nat) : Prop :=
  (ls.map unescapeSpec)[n]? = some sentinel ∧ sentinel ∉ (ls.map unescapeSpec).take n

instance (ls : List QString) (n : Nat) : Decidable (FirstSentinelLine ls n) := by
  unfold FirstSentinelLine
  infer_instance

/-- Position `n` holds the first sentinel of the raw lines `ls`: line `n`
unescapes to the sentinel and none of the `n` lines before it does. -/
def FirstSentinelAt (ls : List QString) (n : Nat) : Prop :=
  (ls.map unescape)[n]? = some sentinel ∧ sentinel ∉ (ls.map unescape).take n

instance (ls : List QString) (n : Nat) : Decidable (FirstSentinelAt ls n) := by
  unfold FirstSentinelAt
  infer_instance

/-- A desktop on which nothing is installed and every dialog is cancelled. -/
def Desktop.bare : Desktop where
  isHelperProtocol := fun _ => false
  protocolExec := fun _ => []
  preferredService := fun _ => none
  queryByMimeType := fun _ => []
  serviceByDesktopName := fun _ => none
  allServices := []
  mimeTypesForFileName := fun _ => []
  mimeTypeForName := fun _ => ⟨false, [], []⟩
  findExecutable := fun _ => []
  urlFromUserInput := fun x => x
  i18n := fun x => x
  openWithDialog := fun _ _ => ⟨false, none, []⟩
  nameFilters := fun l => l
  fileDialog := fun _ => ⟨false, [], [], []⟩
  getExistingDirectoryUrl := fun _ _ => none
  getExistingDirectory := fun _ _ => []
  startDetached := fun _ _ => false
  emailClient := []
  terminalClient := false
  terminalApplication := []

/-- A desktop like `Desktop.bare` on which the user accepts every file dialog
with the first name filter and the one file `/tmp/a`. -/
def Desktop.choosing : Desktop :=
  { Desktop.bare with
    fileDialog := fun setup => ⟨true, setup.nameFilters.headD [], [], ["/tmp/a".toList]⟩ }

/-- The helper as `main` starts it on the raw input `text`, with `browser` as
the configured `BrowserApplication`. -/
def Helper.onInput (text browser : String) : Helper :=
  Helper.init (.good (Input.ofChars text.toList)) browser.toList

/-! ## Escaping -/

theorem replace_nil (before after : QString) : replace before after [] = [] := rfl

/-- A one-character pattern is replaced character by character. -/
theorem replace_single_cons (x : Char) (after : QString) (c : Char) (cs : QString) :
    replace [x] after (c :: cs) =
      if c = x then after ++ replace [x] after cs else c :: replace [x] after cs := by
  by_cases h : c = x
  · subst h; simp [replace, replaceAux, List.isPrefixOf]
  · have h2 : ¬ x = c := fun e => h e.symm
    simp [replace, replaceAux, List.isPrefixOf, h, h2]

/-- A two-character pattern at the head of the text is replaced, and the search
goes on after it. -/
theorem replace_pair_match (x y : Char) (after : QString) (cs : QString) :
    replace [x, y] after (x :: y :: cs) = after ++ replace [x, y] after cs := by
  simp [replace, replaceAux, List.isPrefixOf]

/-- A character that does not start the pattern is kept. -/
theorem replace_pair_ne (x y : Char) (after : QString) (c : Char) (cs : QString) (h : c ≠ x) :
    replace [x, y] after (c :: cs) = c :: replace [x, y] after cs := by
  have h2 : ¬ x = c := fun e => h e.symm
  simp [replace, replaceAux, List.isPrefixOf, h2]

/-- The first character of the pattern is kept when the second does not
follow. -/
theorem replace_pair_head (x y : Char) (after : QString) (cs : QString)
    (h : cs.head? ≠ some y) :
    replace [x, y] after (x :: cs) = x :: replace [x, y] after cs := by
  cases cs with
  | nil => simp [replace, replaceAux, List.isPrefixOf]
  | cons c cs =>
    have h2 : ¬ y = c := by
      intro e; apply h; simp [e]
    simp [replace, replaceAux, List.isPrefixOf, h2]

theorem backslash_ne_n : backslash ≠ 'n' := by decide

theorem backslash_ne_newline : backslash ≠ newline := by decide

theorem newline_ne_n : newline ≠ 'n' := by decide

/-- The convention of the specification, character by character. -/
theorem escapeSpec_cons (c : Char) (s : QString) :
    escapeSpec (c :: s) =
      if c = backslash then backslash :: backslash :: escapeSpec s
      else if c = newline then backslash :: 'n' :: escapeSpec s
      else c :: escapeSpec s := by
  unfold escapeSpec
  by_cases hb : c = backslash
  · subst hb
    simp [replace_single_cons, backslash_ne_newline]
  · by_cases hn : c = newline
    · subst hn
      simp [replace_single_cons, hb]
    · simp [replace_single_cons, hb, hn]

/-- Escaping does not put the letter `n` at the front of a text. -/
theorem escapeSpec_head (s : QString) (h : s.head? ≠ some 'n') :
    (escapeSpec s).head? ≠ some 'n' := by
  cases s with
  | nil => simp [escapeSpec, replace_nil]
  | cons c s =>
    rw [escapeSpec_cons]
    split
    · simp [backslash_ne_n]
    · split
      · simp [backslash_ne_n]
      · simpa using h

/-- The unescaping of `readLine` inverts the convention of the specification on
every text in which no backslash is followed by the letter `n`. -/
theorem unescape_escapeSpec (s : QString) (h : NoBackslashN s = true) :
    unescape (escapeSpec s) = s := by
  induction s with
  | nil => rfl
  | cons c s ih =>
    simp only [NoBackslashN, Bool.and_eq_true, Bool.not_eq_true', Bool.and_eq_false_imp,
      beq_iff_eq] at h
    obtain ⟨hc, hs⟩ := h
    have ih1 := ih hs
    unfold unescape at ih1 ⊢
    rw [escapeSpec_cons]
    by_cases hb : c = backslash
    · subst hb
      have hh : s.head? ≠ some 'n' := by
        intro e
        have := hc rfl
        simp [e] at this
      rw [if_pos rfl, replace_pair_head _ _ _ _ (by simp [backslash_ne_n]),
        replace_pair_head _ _ _ _ (escapeSpec_head s hh), replace_pair_match, ih1]
      rfl
    · by_cases hn : c = newline
      · subst hn
        rw [if_neg hb, if_pos rfl, replace_pair_match]
        simp only [List.singleton_append]
        rw [replace_pair_ne _ _ _ _ _ hb, ih1]
      · rw [if_neg hb, if_neg hn, replace_pair_ne _ _ _ _ _ hb, replace_pair_ne _ _ _ _ _ hb, ih1]

/-- The first replacement of `readLine` puts the letter `n` at the front only
where it was at the front before. -/
theorem replace_backslash_n_head (l : QString) (h : l.head? ≠ some 'n') :
    (replace [backslash, 'n'] [newline] l).head? ≠ some 'n' := by
  cases l with
  | nil => simp [replace_nil]
  | cons c cs =>
    by_cases hb : c = backslash
    · subst hb
      by_cases hn : cs.head? = some 'n'
      · cases cs with
        | nil => simp at hn
        | cons c2 cs =>
          simp only [List.head?_cons, Option.some.injEq] at hn
          subst hn
          rw [replace_pair_match]
          simp [newline_ne_n]
      · rw [replace_pair_head _ _ _ _ hn]
        simp [backslash_ne_n]
    · rw [replace_pair_ne _ _ _ _ _ hb]
      simpa using h

/-- After the first replacement of `readLine` no backslash is followed by the
letter `n`. -/
theorem noBackslashN_replace_backslash_n :
    ∀ l : QString, NoBackslashN (replace [backslash, 'n'] [newline] l) = true
  | [] => rfl
  | [c] => by
    by_cases hb : c = backslash
    · subst hb
      rw [replace_pair_head _ _ _ _ (by simp)]
      simp [replace_nil, NoBackslashN]
    · rw [replace_pair_ne _ _ _ _ _ hb]
      simp [replace_nil, NoBackslashN]
  | c :: c2 :: cs => by
    by_cases hb : c = backslash
    · subst hb
      by_cases hn : c2 = 'n'
      · subst hn
        rw [replace_pair_match]
        simp [NoBackslashN, backslash_ne_newline.symm, noBackslashN_replace_backslash_n cs]
      · rw [replace_pair_head _ _ _ _ (by simpa using hn)]
        have hh := replace_backslash_n_head (c2 :: cs) (by simpa using hn)
        simp only [NoBackslashN, noBackslashN_replace_backslash_n (c2 :: cs), Bool.and_true,
          Bool.not_eq_true', Bool.and_eq_false_imp, beq_iff_eq]
        intro _
        simpa using hh
    · rw [replace_pair_ne _ _ _ _ _ hb]
      simp [NoBackslashN, hb, noBackslashN_replace_backslash_n (c2 :: cs)]

/-- The second replacement of `readLine` keeps the first character of a text. -/
theorem replace_backslash_backslash_head (l : QString) :
    (replace [backslash, backslash] [backslash] l).head? = l.head? := by
  cases l with
  | nil => simp [replace_nil]
  | cons c cs =>
    by_cases hb : c = backslash
    · subst hb
      by_cases hn : cs.head? = some backslash
      · cases cs with
        | nil => simp at hn
        | cons c2 cs =>
          simp only [List.head?_cons, Option.some.injEq] at hn
          subst hn
          rw [replace_pair_match]
          simp
      · rw [replace_pair_head _ _ _ _ hn]
        simp
    · rw [replace_pair_ne _ _ _ _ _ hb]
      simp

/-- The second replacement of `readLine` does not bring a backslash in front of
the letter `n`. -/
theorem noBackslashN_replace_backslash_backslash :
    ∀ l : QString, NoBackslashN l = true →
      NoBackslashN (replace [backslash, backslash] [backslash] l) = true
  | [], _ => rfl
  | [c], _ => by
    by_cases hb : c = backslash
    · subst hb
      rw [replace_pair_head _ _ _ _ (by simp)]
      simp [replace_nil, NoBackslashN]
    · rw [replace_pair_ne _ _ _ _ _ hb]
      simp [replace_nil, NoBackslashN]
  | c :: c2 :: cs, h => by
    simp only [NoBackslashN, Bool.and_eq_true, Bool.not_eq_true', Bool.and_eq_false_imp,
      beq_iff_eq, List.head?_cons, Option.some.injEq] at h
    obtain ⟨h1, h2, h3⟩ := h
    have hcs : NoBackslashN cs = true := h3
    have hc2 : NoBackslashN (c2 :: cs) = true := by
      simp only [NoBackslashN, Bool.and_eq_true, Bool.not_eq_true', Bool.and_eq_false_imp,
        beq_iff_eq]
      exact ⟨h2, h3⟩
    by_cases hb : c = backslash
    · subst hb
      by_cases hn : c2 = backslash
      · subst hn
        rw [replace_pair_match, List.singleton_append]
        simp only [NoBackslashN,
          noBackslashN_replace_backslash_backslash cs hcs, Bool.and_true, Bool.not_eq_true',
          Bool.and_eq_false_imp, beq_iff_eq, replace_backslash_backslash_head]
        intro _
        exact h2 rfl
      · rw [replace_pair_head _ _ _ _ (by simpa using hn)]
        simp only [NoBackslashN, noBackslashN_replace_backslash_backslash (c2 :: cs) hc2,
          Bool.and_true, Bool.not_eq_true', Bool.and_eq_false_imp, beq_iff_eq,
          replace_backslash_backslash_head]
        intro _
        simpa using h1 rfl
    · rw [replace_pair_ne _ _ _ _ _ hb]
      simp [NoBackslashN, hb, noBackslashN_replace_backslash_backslash (c2 :: cs) hc2]

/-- In a line unescaped by `readLine` no backslash is followed by the letter
`n`. -/
theorem noBackslashN_unescape (l : QString) : NoBackslashN (unescape l) = true :=
  noBackslashN_replace_backslash_backslash _ (noBackslashN_replace_backslash_n l)

/-- With the escaping of the specification in the place of `outputLine`, the
unescaping of `readLine` followed by the escaping is idempotent on every line. -/
theorem escapeSpec_unescape_idempotent (l : QString) :
    escapeSpec (unescape (escapeSpec (unescape l))) = escapeSpec (unescape l) := by
  rw [unescape_escapeSpec _ (noBackslashN_unescape l)]

/-- The escaping of `outputLine`, character by character. -/
theorem escape_cons (c : Char) (s : QString) :
    escape (c :: s) =
      if c = backslash then backslash :: '_' :: 's' :: backslash :: escape s
      else if c = newline then backslash :: 'n' :: escape s
      else c :: escape s := by
  unfold escape
  by_cases hb : c = backslash
  · subst hb
    have h1 : ('_' : Char) ≠ newline := by decide
    have h2 : ('s' : Char) ≠ newline := by decide
    simp [replace_single_cons, backslash_ne_newline, h1, h2]
  · by_cases hn : c = newline
    · subst hn
      simp [replace_single_cons, hb]
    · simp [replace_single_cons, hb, hn]

/-- On a text without a backslash `outputLine` follows the convention of the
specification. -/
theorem escape_eq_escapeSpec (s : QString) (h : backslash ∉ s) : escape s = escapeSpec s := by
  induction s with
  | nil => rfl
  | cons c s ih =>
    simp only [List.mem_cons, not_or] at h
    have hc : c ≠ backslash := fun e => h.1 e.symm
    rw [escape_cons, escapeSpec_cons, if_neg hc, if_neg hc, ih h.2]

/-- Without escaping `outputLine` writes the text unchanged. -/
theorem outputLine_not_escaped (s : QString) (h : Helper) :
    outputLine s false h = .ok () { h with cout := h.cout ++ [s] } := rfl

/-- With escaping `outputLine` writes the text as `escape` gives it. -/
theorem outputLine_escaped (s : QString) (h : Helper) :
    outputLine s true h = .ok () { h with cout := h.cout ++ [escape s] } := rfl

/-- C5, at the text consisting of one backslash: with escaping `outputLine`
writes the four characters backslash, underscore, `s`, backslash, where the
convention of the specification gives two backslashes. -/
theorem outputLine_backslash (h : Helper) :
    (outputLine [backslash] true h).state.cout
      = h.cout ++ [[backslash, '_', 's', backslash]] ∧
    escapeSpec [backslash] = [backslash, backslash] ∧
    [backslash, '_', 's', backslash] ≠ [backslash, backslash] :=
  ⟨rfl, rfl, by decide⟩

/-- C6, at the text backslash, `n`: escaped by the convention it is the line
backslash, backslash, `n`, and the unescaping of `readLine` turns that line into
backslash, newline, which is not the text. -/
theorem unescape_escapeSpec_backslash_n :
    escapeSpec [backslash, 'n'] = [backslash, backslash, 'n'] ∧
    unescape [backslash, backslash, 'n'] = [backslash, newline] ∧
    unescape (escapeSpec [backslash, 'n']) ≠ [backslash, 'n'] := by
  decide

/-- C7, at the line consisting of one backslash: unescaping and then escaping
gives backslash, underscore, `s`, backslash, and doing both once more gives a
longer line, so the composition is not idempotent. -/
theorem escape_unescape_twice :
    escape (unescape [backslash]) = "\\_s\\".toList ∧
    escape (unescape (escape (unescape [backslash]))) = "\\_s\\_s\\_s\\".toList ∧
    escape (unescape (escape (unescape [backslash]))) ≠ escape (unescape [backslash]) := by
  decide

/-- C9, at the texts `1` and `0`: the line `outputLine` writes for them with
escaping is the very line `readCommand` writes as the status for success and
for failure. -/
theorem outputLine_escaped_is_status (h : Helper) :
    (outputLine ['1'] true h).state.cout = (outputLine (statusLine true) false h).state.cout ∧
    (outputLine ['0'] true h).state.cout = (outputLine (statusLine false) false h).state.cout :=
  ⟨rfl, rfl⟩

/-! ## The argument reader -/

theorem firstSentinelAt_zero (raw : QString) (ls : List QString) :
    FirstSentinelAt (raw :: ls) 0 ↔ unescape raw = sentinel := by
  simp [FirstSentinelAt]

theorem firstSentinelAt_succ (raw : QString) (ls : List QString) (n : Nat) :
    FirstSentinelAt (raw :: ls) (n + 1) ↔ unescape raw ≠ sentinel ∧ FirstSentinelAt ls n := by
  simp only [FirstSentinelAt, List.map_cons, List.getElem?_cons_succ, List.take_succ_cons,
    List.mem_cons, not_or]
  constructor
  · rintro ⟨h1, h2, h3⟩
    exact ⟨fun e => h2 e.symm, h1, h3⟩
  · rintro ⟨h1, h2, h3⟩
    exact ⟨h2, fun e => h1 e.symm, h3⟩

theorem firstSentinelAt_nil (n : Nat) : ¬ FirstSentinelAt [] n := by
  simp [FirstSentinelAt]

/-- One round of the loop of `readArguments`, as the source writes it: read a
line; when the stream is not good, clear the list and fail; on the sentinel set
`arguments_read` and compare the count; otherwise append and go on. -/
theorem readArgumentsLoop_unfold (mincount : Int) (unread : Input) (h : Helper)
    (hcin : h.cin = .good unread) :
    readArgumentsLoop mincount unread h =
      match readLine h with
      | .abort h1 => .abort h1
      | .ok line h1 =>
        match h1.cin with
        | .bad => .ok false { h1 with arguments := [] }
        | .good unread1 =>
          if line = sentinel then
            if mincount ≤ (h1.arguments.length : Int) then
              .ok true { h1 with arguments_read := true }
            else
              .ok false { h1 with arguments_read := true,
                                  cerr := h1.cerr ++
                                    ["Not enough arguments for KDE helper.".toList] }
          else
            readArgumentsLoop mincount unread1 { h1 with arguments := h1.arguments ++ [line] } := by
  cases unread with
  | line raw rest =>
    simp only [readArgumentsLoop, readLine, hcin, getline]
  | last t =>
    cases t <;> simp [readArgumentsLoop, readLine, hcin, getline]

/-- What the loop of `readArguments` returns when it starts with the arguments
`h.arguments` already collected. -/
theorem readArgumentsLoop_spec (mincount : Int) (unread : Input) (h : Helper) :
    ∃ b h1, readArgumentsLoop mincount unread h = .ok b h1 ∧
      (b = true ↔ ∃ n, FirstSentinelAt unread.lines n ∧
        mincount ≤ ((h.arguments.length + n : Nat) : Int)) ∧
      (∀ n, b = true → FirstSentinelAt unread.lines n →
        h1.arguments = h.arguments ++ (unread.lines.take n).map unescape) := by
  induction unread generalizing h with
  | last t =>
    refine ⟨false, _, rfl, ?_, ?_⟩
    · simp [Input.lines, firstSentinelAt_nil]
    · simp
  | line raw rest ih =>
    by_cases hs : unescape raw = sentinel
    · by_cases hm : mincount ≤ (h.arguments.length : Int)
      · have he : readArgumentsLoop mincount (.line raw rest) h =
            .ok true { h with cin := .good rest, arguments_read := true } := by
          simp [readArgumentsLoop, hs, hm]
        refine ⟨true, _, he, ?_, ?_⟩
        · simp only [true_iff]
          exact ⟨0, (firstSentinelAt_zero raw _).2 hs, by simpa using hm⟩
        · intro n _ hn
          cases n with
          | zero => simp
          | succ k => exact absurd hs ((firstSentinelAt_succ raw _ k).1 hn).1
      · have he : readArgumentsLoop mincount (.line raw rest) h =
            .ok false { h with cin := .good rest, arguments_read := true,
                               cerr := h.cerr ++
                                 ["Not enough arguments for KDE helper.".toList] } := by
          simp [readArgumentsLoop, hs, hm]
        refine ⟨false, _, he, ?_, ?_⟩
        · simp only [Bool.false_eq_true, false_iff, not_exists, not_and]
          intro n hn
          cases n with
          | zero => simpa using hm
          | succ k => exact absurd hs ((firstSentinelAt_succ raw _ k).1 hn).1
        · simp
    · obtain ⟨b, h1, he, hb, ha⟩ :=
        ih { h with cin := .good rest, arguments := h.arguments ++ [unescape raw] }
      have he1 : readArgumentsLoop mincount (.line raw rest) h = .ok b h1 := by
        simp [readArgumentsLoop, hs, he]
      refine ⟨b, h1, he1, ?_, ?_⟩
      · rw [hb]
        constructor
        · rintro ⟨n, hn, hm⟩
          refine ⟨n + 1, (firstSentinelAt_succ raw _ n).2 ⟨hs, hn⟩, ?_⟩
          simp only [List.length_append, List.length_singleton] at hm
          have : h.arguments.length + 1 + n = h.arguments.length + (n + 1) := by omega
          rwa [this] at hm
        · rintro ⟨n, hn, hm⟩
          cases n with
          | zero => exact absurd ((firstSentinelAt_zero raw _).1 hn) hs
          | succ k =>
            refine ⟨k, ((firstSentinelAt_succ raw _ k).1 hn).2, ?_⟩
            simp only [List.length_append, List.length_singleton]
            have : h.arguments.length + 1 + k = h.arguments.length + (k + 1) := by omega
            rwa [this]
      · intro n hbt hn
        cases n with
        | zero => exact absurd ((firstSentinelAt_zero raw _).1 hn) hs
        | succ k =>
          rw [ha k hbt ((firstSentinelAt_succ raw _ k).1 hn).2]
          simp [Input.lines]

/-- What `readArguments(mincount)` returns on an empty argument list, in terms
of the unescaping `readLine` does: it returns (no assertion fails), and it
returns `true` exactly when the newline-terminated lines of the input hold a
line that `readLine` unescapes to the sentinel, first at a position `n` with
`mincount ≤ n`; the argument list is then what `readLine` makes of the first
`n` lines, in input order. -/
theorem readArguments_true_iff (mincount : Int) (h : Helper) (hempty : h.arguments = []) :
    ∃ b h1, readArguments mincount h = .ok b h1 ∧
      (b = true ↔ ∃ n, FirstSentinelAt h.cin.lines n ∧ mincount ≤ (n : Int)) ∧
      (∀ n, b = true → FirstSentinelAt h.cin.lines n →
        h1.arguments = (h.cin.lines.take n).map unescape) := by
  cases hc : h.cin with
  | bad =>
    have he : readArguments mincount h = .ok false { h with arguments := [] } := by
      simp [readArguments, hempty, hc]
    refine ⟨false, _, he, ?_, ?_⟩
    · simp [Cin.lines, firstSentinelAt_nil]
    · simp
  | good unread =>
    obtain ⟨b, h1, he, hb, ha⟩ := readArgumentsLoop_spec mincount unread h
    have he1 : readArguments mincount h = .ok b h1 := by
      simp [readArguments, hempty, hc, he]
    refine ⟨b, h1, he1, ?_, ?_⟩
    · simpa [hempty, Cin.lines] using hb
    · simpa [hempty, Cin.lines] using ha

/-- The same at the input `a`, `b`, sentinel, `c` with `mincount = 2`. -/
theorem readArguments_true_iff_witness :
    (Helper.onInput "a\nb\n\\E\nc\n" "").arguments = [] ∧
    ∃ b h1, readArguments 2 (Helper.onInput "a\nb\n\\E\nc\n" "") = .ok b h1 ∧
      (b = true ↔ ∃ n, FirstSentinelAt (Helper.onInput "a\nb\n\\E\nc\n" "").cin.lines n ∧
        (2 : Int) ≤ (n : Int)) ∧
      (∀ n, b = true → FirstSentinelAt (Helper.onInput "a\nb\n\\E\nc\n" "").cin.lines n →
        h1.arguments = ((Helper.onInput "a\nb\n\\E\nc\n" "").cin.lines.take n).map unescape) :=
  ⟨rfl, readArguments_true_iff 2 (Helper.onInput "a\nb\n\\E\nc\n" "") rfl⟩

/-- A sentinel that ends the input without a newline is read, but leaves the
stream at its end: `readArguments` clears the list and returns `false`. -/
theorem readArguments_unterminated_sentinel :
    (readArguments 0 (Helper.onInput "a\n\\E" "")).value = some false ∧
    (readArguments 0 (Helper.onInput "a\n\\E" "")).state.arguments = [] ∧
    (readArguments 0 (Helper.onInput "a\n\\E\n" "")).value = some true :=
  ⟨rfl, rfl, rfl⟩

/-- The loop of `readArguments` on a request: it stops after the sentinel line
with the unescaped argument lines appended, and compares their number. -/
theorem readArgumentsLoop_request (mincount : Int) (args : List QString) (end_ : QString)
    (rest : Input) (h : Helper)
    (hargs : ∀ raw ∈ args, unescape raw ≠ sentinel) (hend : unescape end_ = sentinel) :
    readArgumentsLoop mincount (Input.request args end_ rest) h =
      .ok (decide (mincount ≤ ((h.arguments.length + args.length : Nat) : Int)))
        { h with
          cin := .good rest
          arguments := h.arguments ++ args.map unescape
          arguments_read := true
          cerr := if mincount ≤ ((h.arguments.length + args.length : Nat) : Int) then h.cerr
                  else h.cerr ++ ["Not enough arguments for KDE helper.".toList] } := by
  induction args generalizing h with
  | nil =>
    by_cases hm : mincount ≤ (h.arguments.length : Int)
    · simp [Input.request, Input.prepend, readArgumentsLoop, hend, hm]
    · simp [Input.request, Input.prepend, readArgumentsLoop, hend, hm]
  | cons raw args ih =>
    have hraw : unescape raw ≠ sentinel := hargs raw (List.mem_cons_self _ _)
    have hlen : h.arguments.length + 1 + args.length = h.arguments.length + (args.length + 1) := by
      omega
    have step : readArgumentsLoop mincount (Input.request (raw :: args) end_ rest) h =
        readArgumentsLoop mincount (Input.request args end_ rest)
          { h with cin := .good (Input.request args end_ rest),
                   arguments := h.arguments ++ [unescape raw] } := by
      simp only [Input.request, List.cons_append, Input.prepend, readArgumentsLoop, hraw, if_false]
      rfl
    rw [step, ih _ (fun r hr => hargs r (List.mem_cons_of_mem _ hr))]
    simp [hlen]

/-- `readArguments` on a request, started with an empty argument list: it
returns whether the request has at least `mincount` arguments, with the
unescaped arguments in the list and the input after the sentinel unread. -/
theorem readArguments_request (mincount : Int) (args : List QString) (end_ : QString)
    (rest : Input) (h : Helper) (hempty : h.arguments = [])
    (hcin : h.cin = .good (Input.request args end_ rest))
    (hargs : ∀ raw ∈ args, unescape raw ≠ sentinel) (hend : unescape end_ = sentinel) :
    readArguments mincount h =
      .ok (decide (mincount ≤ (args.length : Int)))
        { h with
          cin := .good rest
          arguments := args.map unescape
          arguments_read := true
          cerr := if mincount ≤ (args.length : Int) then h.cerr
                  else h.cerr ++ ["Not enough arguments for KDE helper.".toList] } := by
  simp only [readArguments, hempty, List.isEmpty_nil, if_true, hcin]
  rw [readArgumentsLoop_request mincount args end_ rest h hargs hend]
  simp [hempty]

/-- `handleRun` on a request: with fewer than two arguments it fails and keeps
them in the list; with exactly two it succeeds; with more it fails and
discards the surplus. -/
theorem handleRun_request (args : List QString) (end_ : QString) (rest : Input) (h : Helper)
    (hempty : h.arguments = []) (hcin : h.cin = .good (Input.request args end_ rest))
    (hargs : ∀ raw ∈ args, unescape raw ≠ sentinel) (hend : unescape end_ = sentinel) :
    handleRun h =
      if args.length < 2 then
        .ok false { h with
          cin := .good rest
          arguments := args.map unescape
          arguments_read := true
          cerr := h.cerr ++ ["Not enough arguments for KDE helper.".toList] }
      else if args.length = 2 then
        .ok true { h with cin := .good rest, arguments := [], arguments_read := false }
      else
        .ok false { h with
          cin := .good rest
          arguments := []
          arguments_read := false
          cerr := h.cerr ++ ["Unused arguments for KDE helper:".toList ++
            join [' '] ((args.map unescape).drop 2)] } := by
  simp only [handleRun, bind, M.bind, readArguments_request 2 args end_ rest h hempty hcin hargs hend]
  match args with
  | [] => simp [pure, M.bind]
  | [a] => simp [pure, M.bind]
  | [a, b] => simp [pure, M.bind, getArgument, allArgumentsUsed]
  | a :: b :: c :: more =>
    have h1 : ¬ ((more.length : Int) + 1 + 1 + 1 < 2) := by omega
    have h2 : (2 : Int) ≤ (more.length : Int) + 1 + 1 + 1 := by omega
    have h3 : ¬ (more.length + 1 + 1 + 1 < 2) := by omega
    simp [pure, M.bind, getArgument, allArgumentsUsed, h1, h2, h3]

/-- `handleIsDefaultBrowser` on a request: whatever the number of arguments, it
answers from the configuration, and the arguments stay in the list. -/
theorem handleIsDefaultBrowser_request (args : List QString) (end_ : QString) (rest : Input)
    (h : Helper) (hempty : h.arguments = [])
    (hcin : h.cin = .good (Input.request args end_ rest))
    (hargs : ∀ raw ∈ args, unescape raw ≠ sentinel) (hend : unescape end_ = sentinel) :
    handleIsDefaultBrowser h =
      .ok (h.browserApplication = "MozillaFirefox".toList ||
           h.browserApplication = "MozillaFirefox.desktop".toList ||
           h.browserApplication = "!firefox".toList ||
           h.browserApplication = "!/usr/bin/firefox".toList ||
           h.browserApplication = "firefox".toList ||
           h.browserApplication = "firefox.desktop".toList)
        { h with cin := .good rest, arguments := args.map unescape, arguments_read := true } := by
  have h0 : (0 : Int) ≤ (args.length : Int) := by omega
  simp [handleIsDefaultBrowser, bind, M.bind,
    readArguments_request 0 args end_ rest h hempty hcin hargs hend, pure, state, h0]

/-- `getArgumentParent` when the list does not start with the flag: nothing is
taken and the result is 0. -/
theorem getArgumentParent_no_flag (h : Helper)
    (hflag : h.arguments.head? ≠ some "PARENT".toList) :
    getArgumentParent h = .ok 0 h := by
  cases ha : h.arguments with
  | nil => simp [getArgumentParent, bind, M.bind, isArgument, ha, pure]
  | cons a as =>
    have hne : a ≠ "PARENT".toList := by
      intro e; apply hflag; simp [ha, e]
    simp only [getArgumentParent, bind, M.bind, isArgument, ha, if_neg hne]
    rfl

/-- `getArgumentParent` when a value follows the flag: both are taken. -/
theorem getArgumentParent_flag_value (h : Helper) (v : QString) (as : List QString)
    (ha : h.arguments = "PARENT".toList :: v :: as) :
    getArgumentParent h = .ok (toLong v) { h with arguments := as } := by
  simp [getArgumentParent, bind, M.bind, isArgument, ha, pure, getArgument]

/-- `getArgumentParent` when the flag is the last entry: the flag is taken and
the assertion of `getArgument` fails on the empty list. -/
theorem getArgumentParent_flag_last (h : Helper) (ha : h.arguments = ["PARENT".toList]) :
    getArgumentParent h = .abort { h with arguments := [] } := by
  simp [getArgumentParent, bind, M.bind, isArgument, ha, pure, getArgument]

/-! ## The command loop -/

/-- At the end of input `readCommand` writes nothing and asks the application to
exit (main.cpp 113-121): the stream is bad already, or holds no complete line
any more. -/
theorem readCommand_at_end (d : Desktop) (h : Helper) (hlines : h.cin.lines = []) :
    readCommand d h = .ok () { h with cin := .bad, exited := true } := by
  obtain ⟨cin, cout, cerr, arguments, arguments_read, wid, known, browser, exited⟩ := h
  cases cin with
  | bad => rfl
  | good unread =>
    cases unread with
    | line t r => simp [Cin.lines, Input.lines] at hlines
    | last t => cases t <;> rfl

/-- On a known keyword `readCommand` runs the handler on the rest of the input
and, when the handler returns, appends the status line to what it has written;
when an assertion fails in the handler, nothing more is written. -/
theorem readCommand_known (d : Desktop) (h : Helper) (raw : QString) (rest : Input)
    (handler : M Bool) (hcin : h.cin = .good (.line raw rest))
    (hcmd : handlerOf d (unescape raw) = some handler) :
    readCommand d h =
      match handler { h with cin := .good rest } with
      | .ok status h1 => .ok () { h1 with cout := h1.cout ++ [statusLine status] }
      | .abort h1 => .abort h1 := by
  simp only [readCommand, bind, M.bind, readLine, hcin, getline, state, Cin.isGood, hcmd,
    Bool.not_true, Bool.false_eq_true, if_false, pure, outputLine]
  cases handler { h with cin := .good rest } <;> rfl

/-- On any other keyword `readCommand` reads the keyword line only: it logs the
error and writes the status line `0`, and the lines after the keyword stay in
the input. -/
theorem readCommand_unknown (d : Desktop) (h : Helper) (raw : QString) (rest : Input)
    (hcin : h.cin = .good (.line raw rest)) (hcmd : handlerOf d (unescape raw) = none) :
    readCommand d h =
      .ok () { h with cin := .good rest,
                      cerr := h.cerr ++
                        ["Unknown command for KDE helper: ".toList ++ unescape raw],
                      cout := h.cout ++ [['0']] } := by
  simp only [readCommand, bind, M.bind, readLine, hcin, getline, state, Cin.isGood, hcmd,
    Bool.not_true, Bool.false_eq_true, if_false, pure, outputLine, logError, statusLine]

/-- A run of `GETOPENFILENAME` in which the user picks a file under the first
filter: the first line written is the filter index `0`, a result line, and the
last is the status `1`. -/
theorem readCommand_getOpenFileName_lines :
    (readCommand Desktop.choosing
      (Helper.onInput "GETOPENFILENAME\n/tmp\n*.txt|Text\n0\nOpen\n\\E\n" "")).state.cout
      = [['0'], "/tmp/a".toList, ['1']] := by
  decide!

/-- C1, at the request `APPSDIALOG`, `title`, `PARENT`, sentinel: the two
arguments meet the minimum count 1 of `handleAppsDialog` (`readArguments(1)`
returns `true`), yet `readCommand` does not return and writes no line at all,
so no status line follows the command: the assertion of `getArgument` fails
after the `PARENT` flag has been taken. -/
theorem readCommand_appsDialog_parent_no_status (d : Desktop) :
    (readArguments 1 (Helper.onInput "title\nPARENT\n\\E\n" "")).value = some true ∧
    (readCommand d (Helper.onInput "APPSDIALOG\ntitle\nPARENT\n\\E\n" "")).value = none ∧
    (readCommand d (Helper.onInput "APPSDIALOG\ntitle\nPARENT\n\\E\n" "")).state.cout = [] :=
  ⟨rfl, rfl, rfl⟩

/-- C3, at the request `ISDEFAULTBROWSER`, `extra`, sentinel with `firefox`
configured as the browser: `handleIsDefaultBrowser` expects no argument, one
entry is left over, and the status line written is `1`; the entry is still in
the argument list afterwards. -/
theorem readCommand_isDefaultBrowser_extra_argument (d : Desktop) :
    (readCommand d (Helper.onInput "ISDEFAULTBROWSER\nextra\n\\E\n" "firefox")).state.cout
      = [['1']] ∧
    (readCommand d (Helper.onInput "ISDEFAULTBROWSER\nextra\n\\E\n" "firefox")).state.arguments
      = ["extra".toList] :=
  ⟨rfl, rfl⟩

/-- C4, at the request `RUN`, `x`, sentinel (one argument where `handleRun`
needs two): `readCommand` returns with the argument `x` still in the list, and
on the next command the assertion at the start of `readArguments` fails. -/
theorem readCommand_run_leaves_argument (d : Desktop) :
    (readCommand d (Helper.onInput "RUN\nx\n\\E\n" "")).value = some () ∧
    (readCommand d (Helper.onInput "RUN\nx\n\\E\n" "")).state.arguments = ["x".toList] ∧
    (readCommands d 2 (Helper.onInput "RUN\nx\n\\E\nCHECK\n1\n\\E\n" "")).value = none :=
  ⟨rfl, rfl, rfl⟩

/-- C8, at the request `FOO`, sentinel: `readCommand` writes the status `0` and
leaves the sentinel line in the input; the next activation reads that line as a
command of its own, so the program writes two lines for the one request. -/
theorem readCommand_unknown_leaves_sentinel (d : Desktop) :
    (readCommand d (Helper.onInput "FOO\n\\E\n" "")).state.cout = [['0']] ∧
    (readCommand d (Helper.onInput "FOO\n\\E\n" "")).state.cin.lines = [sentinel] ∧
    (readCommands d 2 (Helper.onInput "FOO\n\\E\n" "")).state.cout = [['0'], ['0']] :=
  ⟨rfl, rfl, rfl⟩

/-- C10, at the argument lists `title`, `PARENT` of `handleAppsDialog` and
`url`, `MIMETYPE` of `handleOpen`: `readArguments(1)` returns `true`, the flag is
matched and removed, and the `getArgument` that follows is made on an empty
list, so its assertion fails. -/
theorem getArgument_after_flag_on_empty (d : Desktop) :
    (readArguments 1 (Helper.onInput "title\nPARENT\n\\E\n" "")).value = some true ∧
    (handleAppsDialog d (Helper.onInput "title\nPARENT\n\\E\n" "")).value = none ∧
    (handleAppsDialog d (Helper.onInput "title\nPARENT\n\\E\n" "")).state.arguments = [] ∧
    (readArguments 1 (Helper.onInput "url\nMIMETYPE\n\\E\n" "")).value = some true ∧
    (handleOpen (Helper.onInput "url\nMIMETYPE\n\\E\n" "")).value = none ∧
    (handleOpen (Helper.onInput "url\nMIMETYPE\n\\E\n" "")).state.arguments = [] :=
  ⟨rfl, rfl, rfl, rfl, rfl, rfl⟩

/-! ## CHECK -/

theorem parseDigits_append (a : Nat) (xs ys : List Char) :
    parseDigits a (xs ++ ys) = (parseDigits a xs).bind (fun v => parseDigits v ys) := by
  induction xs generalizing a with
  | nil => rfl
  | cons c cs ih =>
    by_cases hc : c.isDigit = true
    · simp [parseDigits, hc, ih]
    · simp [parseDigits, hc]

/-- The character of a decimal digit is a digit, and its value is read back. -/
theorem digitChar_spec (m : Nat) (h : m < 10) :
    (Nat.digitChar m).isDigit = true ∧ (Nat.digitChar m).toNat - 48 = m := by
  interval_cases m <;> exact ⟨rfl, rfl⟩

theorem isWhitespace_of_isDigit (c : Char) (h : c.isDigit = true) : c.isWhitespace = false := by
  cases hw : c.isWhitespace with
  | false => rfl
  | true =>
    simp only [Char.isWhitespace, Bool.or_eq_true, decide_eq_true_eq] at hw
    rcases hw with ((rfl | rfl) | rfl) | rfl <;> exact absurd h (by decide)

/-- The digits `Nat.toDigits` puts in front of `ds` are decimal digits, at least
one, and `parseDigits` reads the number back from them. -/
theorem toDigitsCore_spec (fuel : Nat) :
    ∀ (n : Nat) (ds : List Char), n < fuel →
      ∃ pre, Nat.toDigitsCore 10 fuel n ds = pre ++ ds ∧ pre ≠ [] ∧
        (∀ c ∈ pre, c.isDigit = true) ∧
        ∀ a, parseDigits a pre = some (a * 10 ^ pre.length + n) := by
  induction fuel with
  | zero => intro n ds h; omega
  | succ fuel ih =>
    intro n ds h
    have hd := digitChar_spec (n % 10) (Nat.mod_lt _ (by omega))
    by_cases h0 : n / 10 = 0
    · refine ⟨[Nat.digitChar (n % 10)], by simp [Nat.toDigitsCore, h0], by simp, ?_, ?_⟩
      · intro c hc
        simp only [List.mem_singleton] at hc
        rw [hc]; exact hd.1
      · intro a
        have hv : 10 * a + ((Nat.digitChar (n % 10)).toNat - 48) = a * 10 + n := by
          rw [hd.2]; omega
        simp only [parseDigits, hd.1, if_true, List.length_singleton, pow_one, hv]
    · obtain ⟨pre, he, _, hdig, hval⟩ :=
        ih (n / 10) (Nat.digitChar (n % 10) :: ds) (by omega)
      refine ⟨pre ++ [Nat.digitChar (n % 10)], by simp [Nat.toDigitsCore, h0, he], by simp,
        ?_, ?_⟩
      · intro c hc
        rcases List.mem_append.1 hc with hc | hc
        · exact hdig c hc
        · simp only [List.mem_singleton] at hc
          rw [hc]; exact hd.1
      · intro a
        rw [parseDigits_append, hval a]
        have hv : 10 * (a * 10 ^ pre.length + n / 10) + ((Nat.digitChar (n % 10)).toNat - 48)
            = a * 10 ^ (pre.length + 1) + n := by
          rw [hd.2, pow_succ]
          have := Nat.div_add_mod n 10
          nlinarith [this]
        simp only [Option.some_bind, parseDigits, hd.1, if_true, List.length_append,
          List.length_singleton, hv]

theorem number_ofNat (m : Nat) : number (Int.ofNat m) = Nat.toDigits 10 m := rfl

theorem number_negSucc (m : Nat) : number (Int.negSucc m) = '-' :: Nat.toDigits 10 (m + 1) := by
  show ("-" ++ Nat.repr (m + 1)).data = _
  rw [String.data_append]
  rfl

/-- The digits of a natural number: decimal digits, at least one, and
`parseDigits` reads the number back. -/
theorem toDigits_spec (m : Nat) :
    Nat.toDigits 10 m ≠ [] ∧ (∀ c ∈ Nat.toDigits 10 m, c.isDigit = true) ∧
      parseDigits 0 (Nat.toDigits 10 m) = some m := by
  obtain ⟨pre, he, hne, hdig, hval⟩ := toDigitsCore_spec (m + 1) m [] (by omega)
  have hpre : Nat.toDigits 10 m = pre := by
    simp only [Nat.toDigits, he, List.append_nil]
  rw [hpre]
  exact ⟨hne, hdig, by simpa using hval 0⟩

/-- White space is only dropped at the two ends of a text: a text whose first
and last characters are not white space is left as it is. -/
theorem trim_eq_self (l : List Char)
    (hhead : ∀ c, l.head? = some c → c.isWhitespace = false)
    (hlast : ∀ c, l.getLast? = some c → c.isWhitespace = false) :
    ((l.dropWhile Char.isWhitespace).reverse.dropWhile Char.isWhitespace).reverse = l := by
  have h1 : l.dropWhile Char.isWhitespace = l := by
    cases l with
    | nil => rfl
    | cons c cs => simp [List.dropWhile, hhead c rfl]
  rw [h1]
  have h2 : l.reverse.dropWhile Char.isWhitespace = l.reverse := by
    cases hr : l.reverse with
    | nil => rfl
    | cons c cs =>
      have : l.getLast? = some c := by
        rw [← List.head?_reverse, hr]; rfl
      simp [List.dropWhile, hlast c this]
  rw [h2, List.reverse_reverse]

/-- The decimal text of an integer denotes that integer. -/
theorem parseInteger_number (v : Int) : parseInteger (number v) = some v := by
  cases v with
  | ofNat m =>
    obtain ⟨hne, hdig, hval⟩ := toDigits_spec m
    rw [number_ofNat]
    have htrim := trim_eq_self (Nat.toDigits 10 m)
      (fun c hc => isWhitespace_of_isDigit c (hdig c (List.mem_of_mem_head? hc)))
      (fun c hc => isWhitespace_of_isDigit c (hdig c (List.mem_of_getLast?_eq_some hc)))
    unfold parseInteger
    rw [htrim]
    cases hl : Nat.toDigits 10 m with
    | nil => exact absurd hl hne
    | cons c ds =>
      have hc : c.isDigit = true := hdig c (by simp [hl])
      have h1 : c ≠ '-' := by
        intro e; rw [e] at hc; exact absurd hc (by decide)
      have h2 : c ≠ '+' := by
        intro e; rw [e] at hc; exact absurd hc (by decide)
      rw [hl] at hval
      simp only [if_neg h1, if_neg h2, hval, Option.map_some']
      rfl
  | negSucc m =>
    obtain ⟨hne, hdig, hval⟩ := toDigits_spec (m + 1)
    rw [number_negSucc]
    have htrim := trim_eq_self ('-' :: Nat.toDigits 10 (m + 1))
      (fun c hc => by
        simp only [List.head?_cons, Option.some.injEq] at hc
        rw [← hc]; decide)
      (fun c hc => by
        cases hl : Nat.toDigits 10 (m + 1) with
        | nil => exact absurd hl hne
        | cons x xs =>
          rw [hl, List.getLast?_cons_cons, ← hl] at hc
          exact isWhitespace_of_isDigit c (hdig c (List.mem_of_getLast?_eq_some hc)))
    unfold parseInteger
    rw [htrim]
    have hemp : (Nat.toDigits 10 (m + 1)).isEmpty = false := by
      cases hl : Nat.toDigits 10 (m + 1) with
      | nil => exact absurd hl hne
      | cons c ds => rfl
    simp only [if_true, hemp, Bool.false_eq_true, if_false, hval, Option.map_some']
    rfl

/-- `QString::toInt` reads the decimal text of an integer that fits a 32-bit
`int` back as that integer. -/
theorem toInt_number (v : Int) (hlo : - 2 ^ 31 ≤ v) (hhi : v < 2 ^ 31) :
    toInt (number v) = v := by
  have h : - 2 ^ 31 ≤ v ∧ v < 2 ^ 31 := ⟨hlo, hhi⟩
  simp only [toInt, parseInteger_number, if_pos h]

/-- The decimal text of an integer is not the sentinel. -/
theorem number_ne_sentinel (v : Int) : number v ≠ sentinel := by
  intro e
  have h := parseInteger_number v
  rw [e] at h
  have hs : parseInteger sentinel = none := by decide
  rw [hs] at h
  exact absurd h (by simp)

/-- `handleCheck` on a request: without an argument it fails; with one argument
it compares the number `toInt` reads from it with `HELPER_VERSION`; with more
it fails and discards the surplus. -/
theorem handleCheck_request (args : List QString) (end_ : QString) (rest : Input) (h : Helper)
    (hempty : h.arguments = []) (hcin : h.cin = .good (Input.request args end_ rest))
    (hargs : ∀ raw ∈ args, unescape raw ≠ sentinel) (hend : unescape end_ = sentinel) :
    handleCheck h =
      if args.length < 1 then
        .ok false { h with
          cin := .good rest
          arguments := []
          arguments_read := true
          cerr := h.cerr ++ ["Not enough arguments for KDE helper.".toList] }
      else if args.length = 1 then
        if toInt ((args.map unescape).headD []) ≤ HELPER_VERSION then
          .ok true { h with cin := .good rest, arguments := [], arguments_read := false }
        else
          .ok false { h with
            cin := .good rest
            arguments := []
            arguments_read := false
            cerr := h.cerr ++ ["KDE helper version too old.".toList] }
      else
        .ok false { h with
          cin := .good rest
          arguments := []
          arguments_read := false
          cerr := h.cerr ++ ["Unused arguments for KDE helper:".toList ++
            join [' '] ((args.map unescape).drop 1)] } := by
  simp only [handleCheck, bind, M.bind,
    readArguments_request 1 args end_ rest h hempty hcin hargs hend]
  match args with
  | [] => simp [pure, M.bind]
  | [a] =>
    by_cases hv : toInt (unescape a) ≤ HELPER_VERSION
    · simp [pure, M.bind, getArgument, allArgumentsUsed, hv]
    · simp [pure, M.bind, getArgument, allArgumentsUsed, hv, logError]
  | a :: b :: more =>
    have h1 : (1 : Int) ≤ (more.length : Int) + 1 + 1 := by omega
    simp [pure, M.bind, getArgument, allArgumentsUsed, h1]

/-- `QString::toInt` gives 0 for the decimal text of an integer below the range
of a 32-bit `int`. -/
theorem toInt_number_of_lt (v : Int) (hlo : v < - 2 ^ 31) : toInt (number v) = 0 := by
  have h : ¬ (- 2 ^ 31 ≤ v ∧ v < 2 ^ 31) := fun hh => absurd hh.1 (not_le.2 hlo)
  simp only [toInt, parseInteger_number, if_neg h]

/-- The version check in terms of the unescaping `readLine` does, for a handler
that starts on an empty argument list: on a request with exactly one argument
that `readLine` reads as the decimal text of an integer `v` with v < 2^31,
`handleCheck` returns `true` exactly when `v` is at most `HELPER_VERSION`, which
is 6; on a request with no argument or with more than one it returns `false`. -/
theorem handleCheck_spec (args : List QString) (end_ : QString) (rest : Input) (h : Helper)
    (hempty : h.arguments = []) (hcin : h.cin = .good (Input.request args end_ rest))
    (hargs : ∀ raw ∈ args, unescape raw ≠ sentinel) (hend : unescape end_ = sentinel) :
    HELPER_VERSION = 6 ∧
    (∀ v : Int, v < 2 ^ 31 → args.map unescape = [number v] →
      (handleCheck h).value = some (decide (v ≤ HELPER_VERSION))) ∧
    (args.length ≠ 1 → (handleCheck h).value = some false) := by
  rw [handleCheck_request args end_ rest h hempty hcin hargs hend]
  refine ⟨rfl, ?_, ?_⟩
  · intro v hhi hv
    have hlen : args.length = 1 := by
      have := congrArg List.length hv
      simpa using this
    have h1 : ¬ args.length < 1 := by omega
    rw [if_neg h1, if_pos hlen, hv, List.headD_cons]
    by_cases hlo : - 2 ^ 31 ≤ v
    · rw [toInt_number v hlo hhi]
      by_cases hle : v ≤ HELPER_VERSION
      · simp [hle, Res.value]
      · simp [hle, Res.value]
    · have hlt : v < - 2 ^ 31 := not_le.1 hlo
      have hle : v ≤ HELPER_VERSION := by
        have h6 : HELPER_VERSION = 6 := rfl
        rw [h6]
        have : (- 2 ^ 31 : Int) ≤ 6 := by norm_num
        omega
      have h0 : (0 : Int) ≤ HELPER_VERSION := by decide
      rw [toInt_number_of_lt v hlt]
      simp [hle, h0, Res.value]
  · intro hlen
    by_cases h1 : args.length < 1
    · rw [if_pos h1]; rfl
    · rw [if_neg h1, if_neg hlen]; rfl

/-- The same at the request with the one argument `6`. -/
theorem handleCheck_spec_witness :
    (Helper.init (.good (Input.request ["6".toList] sentinel (.last []))) []).arguments = [] ∧
    (∀ raw ∈ ["6".toList], unescape raw ≠ sentinel) ∧ unescape sentinel = sentinel ∧
    (HELPER_VERSION = 6 ∧
     (∀ v : Int, v < 2 ^ 31 → ["6".toList].map unescape = [number v] →
       (handleCheck (Helper.init (.good (Input.request ["6".toList] sentinel (.last []))) [])).value
         = some (decide (v ≤ HELPER_VERSION))) ∧
     (["6".toList].length ≠ 1 →
       (handleCheck (Helper.init (.good (Input.request ["6".toList] sentinel (.last []))) [])).value
         = some false)) :=
  ⟨rfl, by decide, by decide,
    handleCheck_spec ["6".toList] sentinel (.last [])
      (Helper.init (.good (Input.request ["6".toList] sentinel (.last []))) [])
      rfl rfl (by decide) (by decide)⟩

/-- A version below the range of a 32-bit `int` is accepted, as a version that
is at most `HELPER_VERSION` should be: `toInt` gives 0 for its text. -/
theorem handleCheck_below_range :
    number (-2147483649) = "-2147483649".toList ∧
    toInt "-2147483649".toList = 0 ∧
    (handleCheck (Helper.onInput "-2147483649\n\\E\n" "")).value = some true := by
  refine ⟨by decide, by decide, by decide⟩

theorem split_ne_nil (sep : Char) (s : QString) : split sep s ≠ [] := by
  cases s with
  | nil => simp [split]
  | cons c cs =>
    unfold split
    split
    · simp
    · split <;> simp

theorem split_cons_sep (sep : Char) (cs : QString) :
    split sep (sep :: cs) = [] :: split sep cs := by
  simp [split]

theorem split_cons_ne (sep c : Char) (cs : QString) (h : c ≠ sep) :
    ∃ p ps, split sep cs = p :: ps ∧ split sep (c :: cs) = (c :: p) :: ps := by
  cases hs : split sep cs with
  | nil => exact absurd hs (split_ne_nil sep cs)
  | cons p ps => exact ⟨p, ps, rfl, by simp [split, h, hs]⟩

/-- `split` cuts at every separator: one part more than there are separators. -/
theorem split_length (sep : Char) (s : QString) : (split sep s).length = s.count sep + 1 := by
  induction s with
  | nil => rfl
  | cons c cs ih =>
    by_cases hc : c = sep
    · subst hc
      simp [split_cons_sep, ih]
    · obtain ⟨p, ps, hs, he⟩ := split_cons_ne sep c cs hc
      have hcount : List.count sep (c :: cs) = List.count sep cs := by
        rw [List.count_cons]
        simp [hc]
      rw [hcount, ← ih, he, hs]
      rfl

/-- Joining the parts with the separator gives the text back. -/
theorem join_split (sep : Char) (s : QString) : join [sep] (split sep s) = s := by
  induction s with
  | nil => rfl
  | cons c cs ih =>
    by_cases hc : c = sep
    · subst hc
      rw [split_cons_sep]
      cases hs : split c cs with
      | nil => exact absurd hs (split_ne_nil c cs)
      | cons p ps =>
        rw [hs] at ih
        simp [join, ih]
    · obtain ⟨p, ps, hs, he⟩ := split_cons_ne sep c cs hc
      rw [hs] at ih
      rw [he]
      cases ps with
      | nil =>
        simp only [join] at ih ⊢
        rw [ih]
      | cons q qs =>
        simp only [join] at ih ⊢
        rw [← ih]
        simp

/-- No part holds the separator. -/
theorem not_mem_of_mem_split (sep : Char) (s : QString) :
    ∀ p ∈ split sep s, sep ∉ p := by
  induction s with
  | nil => simp [split]
  | cons c cs ih =>
    by_cases hc : c = sep
    · subst hc
      intro p hp
      rw [split_cons_sep, List.mem_cons] at hp
      rcases hp with rfl | hp
      · simp
      · exact ih p hp
    · obtain ⟨q, qs, hs, he⟩ := split_cons_ne sep c cs hc
      intro p hp
      rw [he, List.mem_cons] at hp
      rw [hs] at ih
      rcases hp with rfl | hp
      · have hq := ih q (List.mem_cons_self _ _)
        simp only [List.mem_cons, not_or]
        exact ⟨fun e => hc e.symm, hq⟩
      · exact ih p (List.mem_cons_of_mem _ hp)

/-- Every character of a part is a character of the text. -/
theorem mem_of_mem_split (sep : Char) (s : QString) :
    ∀ p ∈ split sep s, ∀ c ∈ p, c ∈ s := by
  induction s with
  | nil => simp [split]
  | cons x xs ih =>
    intro p hp c hc
    by_cases hx : x = sep
    · subst hx
      rw [split_cons_sep, List.mem_cons] at hp
      rcases hp with rfl | hp
      · simp at hc
      · exact List.mem_cons_of_mem _ (ih p hp c hc)
    · obtain ⟨q, qs, hs, he⟩ := split_cons_ne sep x xs hx
      rw [he, List.mem_cons] at hp
      rw [hs] at ih
      rcases hp with rfl | hp
      · simp only [List.mem_cons] at hc
        rcases hc with rfl | hc
        · exact List.mem_cons_self _ _
        · exact List.mem_cons_of_mem _ (ih q (List.mem_cons_self _ _) c hc)
      · exact List.mem_cons_of_mem _ (ih p (List.mem_cons_of_mem _ hp) c hc)

/-- A text without the separator is one part. -/
theorem split_of_not_mem (sep : Char) (s : QString) (h : sep ∉ s) : split sep s = [s] := by
  induction s with
  | nil => rfl
  | cons c cs ih =>
    simp only [List.mem_cons, not_or] at h
    have hc : c ≠ sep := fun e => h.1 e.symm
    obtain ⟨p, ps, hs, he⟩ := split_cons_ne sep c cs hc
    rw [ih h.2] at hs
    simp only [List.cons.injEq] at hs
    rw [he, ← hs.1, ← hs.2]

/-- The first part ends at the first separator. -/
theorem split_append_sep (sep : Char) (p t : QString) (h : sep ∉ p) :
    split sep (p ++ sep :: t) = p :: split sep t := by
  induction p with
  | nil => simp [split_cons_sep]
  | cons c cs ih =>
    simp only [List.mem_cons, not_or] at h
    have hc : c ≠ sep := fun e => h.1 e.symm
    obtain ⟨q, qs, hs, he⟩ := split_cons_ne sep c (cs ++ sep :: t) hc
    rw [ih h.2] at hs
    simp only [List.cons.injEq] at hs
    rw [List.cons_append, he, ← hs.1, ← hs.2]

/-- `arg` on the format of a segment without a name: both markers `%0` are
replaced, whatever the text put in. -/
theorem arg_files (p : QString) :
    arg "%0 Files(%0)".toList p = p ++ " Files(".toList ++ p ++ ")".toList := by
  simp [arg, markerNumbers, markerAt, markerDigits, lowest, argAux]

/-- The first `arg` on the format of a named segment replaces the marker `%0`. -/
theorem arg_name (n : QString) :
    arg "%0 (%1)(%1)".toList n = n ++ " (%1)(%1)".toList := by
  simp [arg, markerNumbers, markerAt, markerDigits, lowest, argAux]

/-- A text without a percent sign holds no place marker. -/
theorem markerNumbers_append (n t : QString) (h : '%' ∉ n) :
    markerNumbers (n ++ t) = markerNumbers t := by
  induction n with
  | nil => rfl
  | cons c cs ih =>
    simp only [List.mem_cons, not_or] at h
    have hc : c ≠ '%' := fun e => h.1 e.symm
    simp [markerNumbers, hc, ih h.2]

/-- A text without a percent sign is copied by `arg`. -/
theorem argAux_append (a : QString) (k : Nat) (n t : QString) (h : '%' ∉ n) :
    argAux a k 0 (n ++ t) = n ++ argAux a k 0 t := by
  induction n with
  | nil => rfl
  | cons c cs ih =>
    simp only [List.mem_cons, not_or] at h
    have hc : c ≠ '%' := fun e => h.1 e.symm
    simp [argAux, hc, ih h.2]

/-- The second `arg` on the format of a named segment replaces the two markers
`%1`, when the name put in by the first holds no percent sign. -/
theorem arg_arg_name (n p : QString) (h : '%' ∉ n) :
    arg (arg "%0 (%1)(%1)".toList n) p
      = n ++ " (".toList ++ p ++ ")(".toList ++ p ++ ")".toList := by
  rw [arg_name]
  unfold arg
  have hl : lowest (markerNumbers " (%1)(%1)".toList) = some 1 := by decide
  have ha : argAux p 1 0 " (%1)(%1)".toList = " (".toList ++ p ++ ")(".toList ++ p ++ ")".toList := by
    simp [markerAt, markerDigits, argAux]
  rw [markerNumbers_append n _ h, hl]
  simp only [argAux_append p 1 n _ h, ha, List.append_assoc]

/-- The entry of a segment without a vertical bar. -/
theorem nameFilterOf_plain (seg : QString) (h : '|' ∉ seg) :
    nameFilterOf seg = seg ++ " Files(".toList ++ seg ++ ")".toList := by
  simp only [nameFilterOf, split_of_not_mem '|' seg h, arg_files]

/-- The entry of a segment whose first two fields are `p` and `n`; what follows
the second field does not matter. -/
theorem nameFilterOf_named (p n more : QString) (hp : '|' ∉ p) (hn : '|' ∉ n)
    (hmore : more = [] ∨ more.head? = some '|') (hpc : '%' ∉ n) :
    nameFilterOf (p ++ '|' :: (n ++ more))
      = n ++ " (".toList ++ p ++ ")(".toList ++ p ++ ")".toList := by
  have hs : ∃ rest, split '|' (p ++ '|' :: (n ++ more)) = p :: n :: rest := by
    rw [split_append_sep '|' p _ hp]
    rcases hmore with rfl | hm
    · exact ⟨[], by rw [List.append_nil, split_of_not_mem '|' n hn]⟩
    · cases more with
      | nil => simp at hm
      | cons c cs =>
        simp only [List.head?_cons, Option.some.injEq] at hm
        subst hm
        exact ⟨split '|' cs, by rw [split_append_sep '|' n cs hn]⟩
  obtain ⟨rest, hs⟩ := hs
  simp only [nameFilterOf, hs, arg_arg_name n p hpc]

/-- The loop of `convertToNameFilters` appends one entry for every segment. -/
theorem convertToNameFilters_eq_map (input : QString) :
    convertToNameFilters input = (split newline input).map nameFilterOf := by
  have step : ∀ (ret : List QString) (filter : QString),
      (match split '|' filter with
        | [] => ret
        | [d0] => ret ++ [arg "%0 Files(%0)".toList d0]
        | d0 :: d1 :: _ => ret ++ [arg (arg "%0 (%1)(%1)".toList d1) d0])
      = ret ++ [nameFilterOf filter] := by
    intro ret filter
    unfold nameFilterOf
    cases hs : split '|' filter with
    | nil => exact absurd hs (split_ne_nil _ _)
    | cons d0 ds =>
      cases ds with
      | nil => rfl
      | cons d1 ds => rfl
  have fold : ∀ (l : List QString) (acc : List QString),
      l.foldl (fun ret filter =>
        match split '|' filter with
        | [] => ret
        | [d0] => ret ++ [arg "%0 Files(%0)".toList d0]
        | d0 :: d1 :: _ => ret ++ [arg (arg "%0 (%1)(%1)".toList d1) d0]) acc
      = acc ++ l.map nameFilterOf := by
    intro l
    induction l with
    | nil => intro acc; simp
    | cons x xs ih =>
      intro acc
      rw [List.foldl_cons, step, ih]
      simp
  unfold convertToNameFilters
  rw [fold]
  rfl

/-- The entry of the empty input. -/
theorem convertToNameFilters_nil : convertToNameFilters [] = [" Files()".toList] := by
  decide

/-- C12: for an input without a percent sign, `convertToNameFilters` returns one
entry for every newline-separated segment, in input order. The segments are
the parts `split` cuts the input into: joined by newlines they give the input,
and none holds a newline; so the result has as many entries as the input has
newlines, plus one. The entry of a segment without a vertical bar is the
segment, ` Files(`, the segment, `)`; the entry of a segment whose first two
bar-separated fields are `p` and `n` is `n`, ` (`, `p`, `)(`, `p`, `)`, whatever
follows the second field. -/
theorem convertToNameFilters_spec (input : QString) (hpercent : '%' ∉ input) :
    join [newline] (split newline input) = input ∧
    (∀ seg ∈ split newline input, newline ∉ seg) ∧
    (convertToNameFilters input).length = (split newline input).length ∧
    (convertToNameFilters input).length = input.count newline + 1 ∧
    ∀ (i : Nat) (seg : QString), (split newline input)[i]? = some seg →
      ('|' ∉ seg →
        (convertToNameFilters input)[i]? = some (seg ++ " Files(".toList ++ seg ++ ")".toList)) ∧
      (∀ p n more : QString, seg = p ++ '|' :: (n ++ more) → '|' ∉ p → '|' ∉ n →
        (more = [] ∨ more.head? = some '|') →
        (convertToNameFilters input)[i]?
          = some (n ++ " (".toList ++ p ++ ")(".toList ++ p ++ ")".toList)) := by
  refine ⟨join_split newline input, not_mem_of_mem_split newline input, ?_, ?_, ?_⟩
  · rw [convertToNameFilters_eq_map, List.length_map]
  · rw [convertToNameFilters_eq_map, List.length_map, split_length]
  · intro i seg hseg
    have hmem : seg ∈ split newline input := List.getElem?_mem hseg
    rw [convertToNameFilters_eq_map, List.getElem?_map, hseg]
    refine ⟨fun hbar => ?_, fun p n more hform hp hn hmore => ?_⟩
    · rw [Option.map_some', nameFilterOf_plain seg hbar]
    · have hpc : '%' ∉ n := by
        intro hin
        apply hpercent
        apply mem_of_mem_split newline input seg hmem
        rw [hform]
        simp [hin]
      rw [Option.map_some', hform, nameFilterOf_named p n more hp hn hmore hpc]

/-- C12 at the input `*.txt|Text`, newline, `*`. -/
theorem convertToNameFilters_spec_witness :
    '%' ∉ "*.txt|Text\n*".toList ∧
    (join [newline] (split newline "*.txt|Text\n*".toList) = "*.txt|Text\n*".toList ∧
    (∀ seg ∈ split newline "*.txt|Text\n*".toList, newline ∉ seg) ∧
    (convertToNameFilters "*.txt|Text\n*".toList).length
      = (split newline "*.txt|Text\n*".toList).length ∧
    (convertToNameFilters "*.txt|Text\n*".toList).length
      = "*.txt|Text\n*".toList.count newline + 1 ∧
    ∀ (i : Nat) (seg : QString), (split newline "*.txt|Text\n*".toList)[i]? = some seg →
      ('|' ∉ seg →
        (convertToNameFilters "*.txt|Text\n*".toList)[i]?
          = some (seg ++ " Files(".toList ++ seg ++ ")".toList)) ∧
      (∀ p n more : QString, seg = p ++ '|' :: (n ++ more) → '|' ∉ p → '|' ∉ n →
        (more = [] ∨ more.head? = some '|') →
        (convertToNameFilters "*.txt|Text\n*".toList)[i]?
          = some (n ++ " (".toList ++ p ++ ")(".toList ++ p ++ ")".toList))) :=
  ⟨by decide, convertToNameFilters_spec "*.txt|Text\n*".toList (by decide)⟩

/-- The entries of the input `*.txt|Text`, newline, `*`. -/
theorem convertToNameFilters_sample :
    convertToNameFilters "*.txt|Text\n*".toList
      = ["Text (*.txt)(*.txt)".toList, "* Files(*)".toList] := by
  decide

/-! ## The preselected name filter -/

/-- `QList::at` under the condition `handleGetOpenOrSaveX` tests before it
(main.cpp 406): an index that is at least the size of the list is out of
range. -/
theorem listAt_of_size_le (l : List QString) (i : Int) (h : Helper)
    (h0 : 0 ≤ i) (hsize : (l.length : Int) ≤ i) : listAt l i h = .abort h := by
  have hnone : l[i.toNat]? = none := List.getElem?_eq_none (by omega)
  simp [listAt, h0, hnone]

/-- `QList::at` on a valid index returns the entry. -/
theorem listAt_of_lt (l : List QString) (i : Nat) (h : Helper) (hlt : i < l.length) :
    listAt l (i : Int) h = .ok l[i] h := by
  have hsome : l[i]? = some l[i] := List.getElem?_eq_getElem hlt
  simp [listAt, hsome]

/-- On a request with the four arguments path, filters, index, title the
handler reaches the lookup exactly when the index is at least the number of
name filters of the dialog, and the lookup ends it. -/
theorem handleGetOpenOrSaveX_lookup (d : Desktop) (url save : Bool)
    (path filters index title end_ : QString) (rest : Input) (h : Helper)
    (hempty : h.arguments = [])
    (hcin : h.cin = .good (Input.request [path, filters, index, title] end_ rest))
    (hargs : ∀ raw ∈ [path, filters, index, title], unescape raw ≠ sentinel)
    (hend : unescape end_ = sentinel)
    (h0 : 0 ≤ toInt (unescape index))
    (hsize : ((d.nameFilters (convertToNameFilters (unescape filters))).length : Int)
      ≤ toInt (unescape index)) :
    (handleGetOpenOrSaveX d url save h).value = none := by
  have hl := listAt_of_size_le (d.nameFilters (convertToNameFilters (unescape filters)))
    (toInt (unescape index))
  cases save <;>
    simp [handleGetOpenOrSaveX, bind, M.bind,
      readArguments_request 4 _ end_ rest h hempty hcin hargs hend, pure, getArgument,
      isArgument, getArgumentParent, update, allArgumentsUsed, h0, hsize, hl, Res.value]

/-- C13, at the request `GETOPENFILENAME` with the arguments `/tmp`,
`*.txt|Text`, `1`, `Open`: the dialog has one name filter, the requested index
1 passes the test `selectFilter >= 0 && selectFilter >= size`, and the lookup
`at(1)` is made although 1 is not a valid index of the list; the handler ends
there. -/
theorem handleGetOpenOrSaveX_lookup_out_of_range :
    toInt "1".toList = 1 ∧
    (Desktop.bare.nameFilters (convertToNameFilters "*.txt|Text".toList)).length = 1 ∧
    (readArguments 4 (Helper.onInput "/tmp\n*.txt|Text\n1\nOpen\n\\E\n" "")).value = some true ∧
    (handleGetOpenOrSaveX Desktop.bare false false
      (Helper.onInput "/tmp\n*.txt|Text\n1\nOpen\n\\E\n" "")).value = none ∧
    (readCommand Desktop.bare
      (Helper.onInput "GETOPENFILENAME\n/tmp\n*.txt|Text\n1\nOpen\n\\E\n" "")).state.cout = [] := by
  refine ⟨by decide, by decide, by decide, by decide, by decide⟩

/-! ## The argument reader and the escaping convention -/

theorem unescapeSpec_backslash_backslash (cs : QString) :
    unescapeSpec (backslash :: backslash :: cs) = backslash :: unescapeSpec cs := by
  simp [unescapeSpec]

theorem unescapeSpec_backslash_n (cs : QString) :
    unescapeSpec (backslash :: 'n' :: cs) = newline :: unescapeSpec cs := by
  simp [unescapeSpec, backslash_ne_n.symm]

theorem unescapeSpec_cons_ne (c : Char) (cs : QString) (h : c ≠ backslash) :
    unescapeSpec (c :: cs) = c :: unescapeSpec cs := by
  cases cs with
  | nil => rfl
  | cons d cs => simp [unescapeSpec, h]

theorem unescapeSpec_backslash_other (d : Char) (cs : QString) (hb : d ≠ backslash)
    (hn : d ≠ 'n') :
    unescapeSpec (backslash :: d :: cs) = backslash :: unescapeSpec (d :: cs) := by
  simp [unescapeSpec, hb, hn]

/-- The unescaping of the specification inverts its escaping on every text. -/
theorem unescapeSpec_escapeSpec (s : QString) : unescapeSpec (escapeSpec s) = s := by
  induction s with
  | nil => rfl
  | cons c s ih =>
    rw [escapeSpec_cons]
    by_cases hb : c = backslash
    · subst hb
      rw [if_pos rfl, unescapeSpec_backslash_backslash, ih]
    · by_cases hn : c = newline
      · subst hn
        rw [if_neg hb, if_pos rfl, unescapeSpec_backslash_n, ih]
      · rw [if_neg hb, if_neg hn, unescapeSpec_cons_ne c _ hb, ih]

theorem unescape_nil : unescape [] = [] := rfl

theorem unescape_cons_ne (c : Char) (cs : QString) (h : c ≠ backslash) :
    unescape (c :: cs) = c :: unescape cs := by
  unfold unescape
  rw [replace_pair_ne _ _ _ _ _ h, replace_pair_ne _ _ _ _ _ h]

theorem unescape_backslash_n (cs : QString) :
    unescape (backslash :: 'n' :: cs) = newline :: unescape cs := by
  unfold unescape
  rw [replace_pair_match, List.singleton_append,
    replace_pair_ne _ _ _ _ _ backslash_ne_newline.symm]

/-- On a line in which no escaped backslash is followed by `n`, `readLine`
unescapes as the specification says. -/
theorem unescape_eq_unescapeSpec :
    ∀ raw : QString, NoEscapedBackslashN raw = true → unescape raw = unescapeSpec raw
  | [], _ => rfl
  | [c], _ => by
    by_cases hb : c = backslash
    · subst hb
      unfold unescape
      rw [replace_pair_head _ _ _ _ (by simp), replace_nil,
        replace_pair_head _ _ _ _ (by simp), replace_nil]
      rfl
    · rw [unescape_cons_ne c _ hb, unescapeSpec_cons_ne c _ hb]
      rfl
  | c :: d :: cs, h => by
    by_cases hb : c = backslash
    · subst hb
      by_cases hd : d = backslash
      · subst hd
        have h1 : cs.head? ≠ some 'n' ∧ NoEscapedBackslashN cs = true := by
          simpa [NoEscapedBackslashN] using h
        have ih := unescape_eq_unescapeSpec cs h1.2
        unfold unescape at ih ⊢
        rw [unescapeSpec_backslash_backslash,
          replace_pair_head _ _ _ _ (by simp [backslash_ne_n]),
          replace_pair_head _ _ _ _ h1.1, replace_pair_match, ih]
        rfl
      · by_cases hn : d = 'n'
        · subst hn
          have h1 : NoEscapedBackslashN cs = true := by
            simpa [NoEscapedBackslashN, backslash_ne_n.symm] using h
          rw [unescape_backslash_n, unescapeSpec_backslash_n, unescape_eq_unescapeSpec cs h1]
        · have h1 : NoEscapedBackslashN (d :: cs) = true := by
            simpa [NoEscapedBackslashN, hd, hn] using h
          have ih := unescape_eq_unescapeSpec (d :: cs) h1
          unfold unescape at ih ⊢
          rw [unescapeSpec_backslash_other d cs hd hn,
            replace_pair_head _ _ _ _ (by simpa using hn),
            replace_pair_ne _ _ _ d cs hd,
            replace_pair_head _ _ _ _ (by simpa using hd),
            ← replace_pair_ne _ _ _ d cs hd, ih]
    · have h1 : NoEscapedBackslashN (d :: cs) = true := by
        simpa [NoEscapedBackslashN, hb] using h
      rw [unescape_cons_ne c _ hb, unescapeSpec_cons_ne c _ hb,
        unescape_eq_unescapeSpec (d :: cs) h1]

theorem noBackslashN_cons_false (c : Char) (cs : QString) (h : NoBackslashN cs = false) :
    NoBackslashN (c :: cs) = false := by
  simp [NoBackslashN, h]

/-- A line with an escaped backslash followed by `n` holds a backslash followed
by `n`. -/
theorem noBackslashN_false_of_noEscapedBackslashN_false :
    ∀ raw : QString, NoEscapedBackslashN raw = false → NoBackslashN raw = false
  | [], h => by simp [NoEscapedBackslashN] at h
  | [c], h => by simp [NoEscapedBackslashN] at h
  | c :: d :: cs, h => by
    by_cases hb : c = backslash
    · subst hb
      by_cases hd : d = backslash
      · subst hd
        by_cases hh : cs.head? = some 'n'
        · apply noBackslashN_cons_false
          simp [NoBackslashN, hh]
        · have h1 : NoEscapedBackslashN cs = false := by
            simpa [NoEscapedBackslashN, hh] using h
          exact noBackslashN_cons_false _ _ (noBackslashN_cons_false _ _
            (noBackslashN_false_of_noEscapedBackslashN_false cs h1))
      · by_cases hn : d = 'n'
        · subst hn
          simp [NoBackslashN]
        · have h1 : NoEscapedBackslashN (d :: cs) = false := by
            simpa [NoEscapedBackslashN, hd, hn] using h
          exact noBackslashN_cons_false _ _
            (noBackslashN_false_of_noEscapedBackslashN_false (d :: cs) h1)
    · have h1 : NoEscapedBackslashN (d :: cs) = false := by
        simpa [NoEscapedBackslashN, hb] using h
      exact noBackslashN_cons_false _ _
        (noBackslashN_false_of_noEscapedBackslashN_false (d :: cs) h1)

/-- The first replacement of `readLine` puts a newline into every line that
holds a backslash followed by `n`. -/
theorem newline_mem_replace_backslash_n (raw : QString) (h : NoBackslashN raw = false) :
    newline ∈ replace [backslash, 'n'] [newline] raw := by
  induction raw with
  | nil => simp [NoBackslashN] at h
  | cons c cs ih =>
    by_cases hb : c = backslash
    · subst hb
      by_cases hh : cs.head? = some 'n'
      · cases cs with
        | nil => simp at hh
        | cons d cs =>
          simp only [List.head?_cons, Option.some.injEq] at hh
          subst hh
          rw [replace_pair_match]
          simp
      · have h1 : NoBackslashN cs = false := by
          simpa [NoBackslashN, hh] using h
        rw [replace_pair_head _ _ _ _ hh]
        exact List.mem_cons_of_mem _ (ih h1)
    · have h1 : NoBackslashN cs = false := by
        simpa [NoBackslashN, hb] using h
      rw [replace_pair_ne _ _ _ _ _ hb]
      exact List.mem_cons_of_mem _ (ih h1)

/-- The second replacement of `readLine` keeps every newline. -/
theorem newline_mem_replace_backslash_backslash :
    ∀ l : QString, newline ∈ l → newline ∈ replace [backslash, backslash] [backslash] l
  | [], h => by simp at h
  | [c], h => by
    simp only [List.mem_singleton] at h
    subst h
    rw [replace_pair_ne _ _ _ _ _ backslash_ne_newline.symm]
    simp
  | c :: d :: cs, h => by
    by_cases hb : c = backslash
    · subst hb
      have h1 : newline ∈ d :: cs := by
        simp only [List.mem_cons] at h
        rcases h with h | h
        · exact absurd h.symm backslash_ne_newline
        · simpa using h
      by_cases hd : d = backslash
      · subst hd
        have h2 : newline ∈ cs := by
          simp only [List.mem_cons] at h1
          rcases h1 with h1 | h1
          · exact absurd h1.symm backslash_ne_newline
          · exact h1
        rw [replace_pair_match, List.singleton_append]
        exact List.mem_cons_of_mem _ (newline_mem_replace_backslash_backslash cs h2)
      · rw [replace_pair_head _ _ _ _ (by simpa using hd)]
        exact List.mem_cons_of_mem _ (newline_mem_replace_backslash_backslash (d :: cs) h1)
    · rw [replace_pair_ne _ _ _ _ _ hb]
      simp only [List.mem_cons] at h ⊢
      rcases h with h | h
      · exact Or.inl h
      · exact Or.inr (newline_mem_replace_backslash_backslash (d :: cs) (by simpa using h))

/-- The unescaping of the specification of a line with an escaped backslash
followed by `n` holds the letter `n`. -/
theorem n_mem_unescapeSpec :
    ∀ raw : QString, NoEscapedBackslashN raw = false → 'n' ∈ unescapeSpec raw
  | [], h => by simp [NoEscapedBackslashN] at h
  | [c], h => by simp [NoEscapedBackslashN] at h
  | c :: d :: cs, h => by
    by_cases hb : c = backslash
    · subst hb
      by_cases hd : d = backslash
      · subst hd
        rw [unescapeSpec_backslash_backslash]
        by_cases hh : cs.head? = some 'n'
        · cases cs with
          | nil => simp at hh
          | cons e cs =>
            simp only [List.head?_cons, Option.some.injEq] at hh
            subst hh
            rw [unescapeSpec_cons_ne 'n' cs backslash_ne_n.symm]
            simp
        · have h1 : NoEscapedBackslashN cs = false := by
            simpa [NoEscapedBackslashN, hh] using h
          exact List.mem_cons_of_mem _ (n_mem_unescapeSpec cs h1)
      · by_cases hn : d = 'n'
        · subst hn
          have h1 : NoEscapedBackslashN cs = false := by
            simpa [NoEscapedBackslashN, backslash_ne_n.symm] using h
          rw [unescapeSpec_backslash_n]
          exact List.mem_cons_of_mem _ (n_mem_unescapeSpec cs h1)
        · have h1 : NoEscapedBackslashN (d :: cs) = false := by
            simpa [NoEscapedBackslashN, hd, hn] using h
          rw [unescapeSpec_backslash_other d cs hd hn]
          exact List.mem_cons_of_mem _ (n_mem_unescapeSpec (d :: cs) h1)
    · have h1 : NoEscapedBackslashN (d :: cs) = false := by
        simpa [NoEscapedBackslashN, hb] using h
      rw [unescapeSpec_cons_ne c _ hb]
      exact List.mem_cons_of_mem _ (n_mem_unescapeSpec (d :: cs) h1)

/-- `readLine` and the specification recognise the same lines as the sentinel:
a line on which the two unescapings differ is the sentinel for neither. -/
theorem unescape_eq_sentinel_iff (raw : QString) :
    unescape raw = sentinel ↔ unescapeSpec raw = sentinel := by
  cases h : NoEscapedBackslashN raw with
  | true => rw [unescape_eq_unescapeSpec raw h]
  | false =>
    have h1 : newline ∈ unescape raw :=
      newline_mem_replace_backslash_backslash _
        (newline_mem_replace_backslash_n raw
          (noBackslashN_false_of_noEscapedBackslashN_false raw h))
    have h2 : 'n' ∈ unescapeSpec raw := n_mem_unescapeSpec raw h
    constructor
    · intro e
      rw [e] at h1
      exact absurd h1 (by decide)
    · intro e
      rw [e] at h2
      exact absurd h2 (by decide)

/-- The first sentinel of the lines is the same for `readLine` and for the
specification. -/
theorem firstSentinelAt_iff_firstSentinelLine (ls : List QString) (n : Nat) :
    FirstSentinelAt ls n ↔ FirstSentinelLine ls n := by
  induction ls generalizing n with
  | nil => simp [FirstSentinelAt, FirstSentinelLine]
  | cons raw ls ih =>
    cases n with
    | zero => simp [FirstSentinelAt, FirstSentinelLine, unescape_eq_sentinel_iff]
    | succ k =>
      have hk := ih k
      simp only [FirstSentinelAt, FirstSentinelLine, List.map_cons, List.getElem?_cons_succ,
        List.take_succ_cons, List.mem_cons, not_or] at hk ⊢
      have hne : ¬ sentinel = unescape raw ↔ ¬ sentinel = unescapeSpec raw := by
        rw [eq_comm, unescape_eq_sentinel_iff, eq_comm]
      constructor
      · rintro ⟨h1, h2, h3⟩
        have := hk.1 ⟨h1, h3⟩
        exact ⟨this.1, hne.1 h2, this.2⟩
      · rintro ⟨h1, h2, h3⟩
        have := hk.2 ⟨h1, h3⟩
        exact ⟨this.1, hne.2 h2, this.2⟩

/-- C2, for lines ended by a newline and texts the two unescapings agree on:
on an empty argument list `readArguments(mincount)` returns (no assertion
fails), and it returns `true` exactly when the newline-terminated lines of the
input hold a sentinel, a line whose unescaped text is backslash followed by
`E`, whose first occurrence is at a position `n` with `mincount ≤ n`. When it
returns `true` the argument list has one entry for each of the `n` lines before
that sentinel, in input order, so the sentinel is not part of it, and the
entry of every such line in which no escaped backslash is followed by `n` is
the unescaped text of the line. The unescaped text is the one of the
specification, `unescapeSpec`, which inverts the escaping convention. -/
theorem readArguments_sentinel_spec (mincount : Int) (h : Helper) (hempty : h.arguments = []) :
    (∀ s : QString, unescapeSpec (escapeSpec s) = s) ∧
    ∃ b h1, readArguments mincount h = .ok b h1 ∧
      (b = true ↔ ∃ n, FirstSentinelLine h.cin.lines n ∧ mincount ≤ (n : Int)) ∧
      (∀ n, b = true → FirstSentinelLine h.cin.lines n →
        h1.arguments.length = n ∧
        ∀ (i : Nat) (raw : QString), i < n → h.cin.lines[i]? = some raw →
          NoEscapedBackslashN raw = true → h1.arguments[i]? = some (unescapeSpec raw)) := by
  refine ⟨unescapeSpec_escapeSpec, ?_⟩
  obtain ⟨b, h1, he, hb, ha⟩ := readArguments_true_iff mincount h hempty
  refine ⟨b, h1, he, ?_, ?_⟩
  · rw [hb]
    constructor
    · rintro ⟨n, hn, hm⟩
      exact ⟨n, (firstSentinelAt_iff_firstSentinelLine _ n).1 hn, hm⟩
    · rintro ⟨n, hn, hm⟩
      exact ⟨n, (firstSentinelAt_iff_firstSentinelLine _ n).2 hn, hm⟩
  · intro n hbt hn
    have hn1 := (firstSentinelAt_iff_firstSentinelLine _ n).2 hn
    have hargs := ha n hbt hn1
    have hlt : n < h.cin.lines.length := by
      have hsome := hn.1
      rw [List.getElem?_map] at hsome
      cases hl : h.cin.lines[n]? with
      | none => rw [hl] at hsome; simp at hsome
      | some x =>
        have := List.getElem?_eq_some.1 hl
        exact this.1
    refine ⟨?_, ?_⟩
    · rw [hargs, List.length_map, List.length_take]
      omega
    · intro i raw hi hraw hne
      rw [hargs, List.getElem?_map, List.getElem?_take_of_lt hi, hraw, Option.map_some',
        unescape_eq_unescapeSpec raw hne]

/-- C2 at an input with an escaped backslash and an escaped newline: the lines
`a\\b` and `c\nd`, the sentinel, and a further line, with `mincount = 2`. -/
theorem readArguments_sentinel_spec_witness :
    (Helper.onInput "a\\\\b\nc\\nd\n\\E\nrest\n" "").arguments = [] ∧
    ((∀ s : QString, unescapeSpec (escapeSpec s) = s) ∧
    ∃ b h1, readArguments 2 (Helper.onInput "a\\\\b\nc\\nd\n\\E\nrest\n" "") = .ok b h1 ∧
      (b = true ↔ ∃ n,
        FirstSentinelLine (Helper.onInput "a\\\\b\nc\\nd\n\\E\nrest\n" "").cin.lines n ∧
        (2 : Int) ≤ (n : Int)) ∧
      (∀ n, b = true →
        FirstSentinelLine (Helper.onInput "a\\\\b\nc\\nd\n\\E\nrest\n" "").cin.lines n →
        h1.arguments.length = n ∧
        ∀ (i : Nat) (raw : QString), i < n →
          (Helper.onInput "a\\\\b\nc\\nd\n\\E\nrest\n" "").cin.lines[i]? = some raw →
          NoEscapedBackslashN raw = true → h1.arguments[i]? = some (unescapeSpec raw))) :=
  ⟨rfl, readArguments_sentinel_spec 2 (Helper.onInput "a\\\\b\nc\\nd\n\\E\nrest\n" "") rfl⟩

/-- The arguments read from the input of the witness: a backslash for the
escaped backslash, a newline for the escaped newline. -/
theorem readArguments_sample :
    (readArguments 2 (Helper.onInput "a\\\\b\nc\\nd\n\\E\nrest\n" "")).value = some true ∧
    (readArguments 2 (Helper.onInput "a\\\\b\nc\\nd\n\\E\nrest\n" "")).state.arguments
      = ["a\\b".toList, "c\nd".toList] ∧
    (readArguments 2 (Helper.onInput "a\\\\b\nc\\nd\n\\E\nrest\n" "")).state.cin.lines
      = ["rest".toList] := by
  decide

/-- C2 as stated fails at two inputs. On the input `a`, newline, backslash `E`
with no newline after it, the text has the two lines `a` and the sentinel, and
one line before the sentinel is at least `mincount = 0`, yet `readArguments`
returns `false`: the sentinel is read at the end of input, where the stream is
no longer good. On the input of the line backslash, backslash, `n` followed by
the sentinel line, `readArguments` returns `true` and the argument list holds
backslash, newline, where the unescaped text of the line is backslash, `n`. -/
theorem readArguments_unterminated_or_escaped :
    split newline "a\n\\E".toList = ["a".toList, sentinel] ∧
    FirstSentinelLine (split newline "a\n\\E".toList) 1 ∧
    (readArguments 0 (Helper.onInput "a\n\\E" "")).value = some false ∧
    (Helper.onInput "\\\\n\n\\E\n" "").cin.lines = [[backslash, backslash, 'n'], sentinel] ∧
    FirstSentinelLine (Helper.onInput "\\\\n\n\\E\n" "").cin.lines 1 ∧
    (readArguments 0 (Helper.onInput "\\\\n\n\\E\n" "")).value = some true ∧
    (readArguments 0 (Helper.onInput "\\\\n\n\\E\n" "")).state.arguments
      = [[backslash, newline]] ∧
    unescapeSpec [backslash, backslash, 'n'] = [backslash, 'n'] ∧
    escapeSpec [backslash, 'n'] = [backslash, backslash, 'n'] := by
  decide

/-! ## CHECK and the escaping convention -/

end KMozillaHelper
